import Mathlib

/-!
# liquid-dsp, `src/utility/src/getopt_msvc.c`: the option scanner

A shallow embedding of `getopt`, `getopt_long` and `getopt_reset`.

* A C string is the list of its `char` values before the terminating NUL
  (`List Int`, each value the `int` the `char` converts to); reading index
  `length` gives the terminator `0`, reading further is out of bounds.
* The globals `optarg`, `optind`, `opterr`, `optopt`, the function-local
  `static int sp` of `getopt`, the `int` cells the `flag` pointers designate,
  the `int` that `longindex` points to and the text written to `stderr` make up
  `State`, passed explicitly.
* A call returns `none` when the C code would read out of bounds (or through a
  null pointer), and `some (r, s)` with the `int` result `r` and the state `s`
  after the call otherwise.
* `optind` and `sp` are natural numbers: the code only increments them or sets
  them to 1, and they stay below the number of tokens plus two and the length
  of a token plus one, so the `int` arithmetic never wraps. The result -1 is
  the end of the options, `'?'` an error.
-/

namespace Getopt

/-- The `int` value of a character constant such as `'-'`. -/
def ch (c : Char) : Int := Int.ofNat c.toNat

/-- The C string holding an (ASCII) string literal. -/
def cstr (s : String) : List Int := s.toList.map ch

/-- The read `s[j]` of a C string: the terminator sits at index `length`. -/
def charAt : List Int → Nat → Option Int
  | [], 0 => some 0
  | [], _ + 1 => none
  | c :: _, 0 => some c
  | _ :: s, j + 1 => charAt s j

/-- The index `strchr(s, c)` points at, `none` for `NULL`. The terminator is
part of the string searched, so `c = 0` is found at index `length`. -/
def strchr : List Int → Int → Option Nat
  | [], c => if c = 0 then some 0 else none
  | x :: s, c => if x = c then some 0 else (strchr s c).map (· + 1)

/-- The sign `strcmp(a, b)` returns; characters compare as `unsigned char`. -/
def strcmp : List Int → List Int → Int
  | [], [] => 0
  | [], _ :: _ => -1
  | _ :: _, [] => 1
  | x :: a, y :: b =>
    if x = y then strcmp a b else if x % 256 < y % 256 then -1 else 1

/-- The sign `strncmp(a, b, n)` returns: at most `n` characters are compared. -/
def strncmp : List Int → List Int → Nat → Int
  | _, _, 0 => 0
  | [], [], _ + 1 => 0
  | [], _ :: _, _ + 1 => -1
  | _ :: _, [], _ + 1 => 1
  | x :: a, y :: b, n + 1 =>
    if x = y then strncmp a b n else if x % 256 < y % 256 then -1 else 1

/-- The globals of the file, the static `sp` of `getopt`, and what the calls
write outside them. -/
structure State where
  /-- `char *optarg`: the text it points at, `none` for `NULL`. -/
  optarg : Option (List Int)
  /-- `int optind`. -/
  optind : Nat
  /-- `int opterr`. -/
  opterr : Int
  /-- `int optopt`. -/
  optopt : Int
  /-- `static int sp` of `getopt`. -/
  sp : Nat
  /-- The `int` cells that `flag` pointers designate, by address. -/
  flags : Nat → Int
  /-- The `int` that `longindex` points to, when it is not `NULL`. -/
  longindex : Int
  /-- The strings written to `stderr`, oldest first. -/
  stderr : List (List Int)

/-- The state before the first call: `optarg = NULL`, `optind = 1`,
`opterr = 1`, `optopt = '?'`, `sp = 1`; the caller's cells hold anything. -/
def State.initial (flags : Nat → Int) (longindex : Int) : State :=
  { optarg := none, optind := 1, opterr := 1, optopt := ch '?', sp := 1,
    flags := flags, longindex := longindex, stderr := [] }

/-- The function `getopt_reset` (lines 24-28). -/
def getopt_reset (s : State) : State :=
  { s with optind := 1, optarg := none }

/-- One `fprintf(stderr, ...)`: the formatted text is appended to the log. -/
def fprintf_stderr (s : State) (text : List Int) : State :=
  { s with stderr := s.stderr ++ [text] }

/-- The text of `"%s: illegal option -- %c\n"`. -/
def msg_illegal (prog : List Int) (c : Int) : List Int :=
  prog ++ cstr ": illegal option -- " ++ [c] ++ cstr "\n"

/-- The text of `"%s: option requires an argument -- %c\n"`. -/
def msg_requires_short (prog : List Int) (c : Int) : List Int :=
  prog ++ cstr ": option requires an argument -- " ++ [c] ++ cstr "\n"

/-- The text of `"%s: option requires argument -- %s\n"`. -/
def msg_requires_long (prog name : List Int) : List Int :=
  prog ++ cstr ": option requires argument -- " ++ name ++ cstr "\n"

/-- The text of `"%s: unrecognized option '--%s'\n"`. -/
def msg_unrecognized (prog arg : List Int) : List Int :=
  prog ++ cstr ": unrecognized option \x27--" ++ arg ++ cstr "\x27\n"

/-- The statement `if (opterr) fprintf(stderr, format, argv[0], ...)`: `text`
gives the formatted message from the program name `argv[0]`. -/
def diagnose (argv : List (List Int)) (s : State) (text : List Int → List Int) : Option State :=
  if s.opterr ≠ 0 then argv[0]?.map (fun prog => fprintf_stderr s (text prog)) else some s

/-- Lines 54-57 and 76-79 of `getopt`: `if (argv[optind][++sp] == '\0')`
moves on to the next token. -/
def advance (tok : List Int) (s : State) : Option State := do
  let d ← charAt tok (s.sp + 1)
  if d = 0 then some { s with sp := 1, optind := s.optind + 1 }
  else some { s with sp := s.sp + 1 }

/-- Lines 47-83 of `getopt`: the character at `sp` of `argv[optind]` is looked
up in `optstring`. -/
def getopt_scan (argv : List (List Int)) (optstring : List Int) (s : State) :
    Option (Int × State) := do
  let tok ← argv[s.optind]?
  let c ← charAt tok s.sp
  let s := { s with optopt := c }
  let cp := strchr optstring c
  if c = ch ':' ∨ cp = none then
    let s ← diagnose argv s (fun prog => msg_illegal prog c)
    let s ← advance tok s
    some (ch '?', s)
  else
    let i ← cp
    let nxt ← charAt optstring (i + 1)
    if nxt = ch ':' then
      let d ← charAt tok (s.sp + 1)
      if d ≠ 0 then
        some (c, { s with optarg := some (tok.drop (s.sp + 1)), optind := s.optind + 1, sp := 1 })
      else if s.optind + 1 ≥ argv.length then
        let s := { s with optind := s.optind + 1 }
        let s ← diagnose argv s (fun prog => msg_requires_short prog c)
        some (ch '?', { s with sp := 1 })
      else
        let val ← argv[s.optind + 1]?
        some (c, { s with optarg := some val, optind := s.optind + 2, sp := 1 })
    else
      let s ← advance tok s
      some (c, { s with optarg := none })

/-- The function `getopt` (lines 30-84). -/
def getopt (argv : List (List Int)) (optstring : List Int) (s : State) :
    Option (Int × State) :=
  if s.sp = 1 then
    if s.optind ≥ argv.length then some (-1, s)
    else do
      let tok ← argv[s.optind]?
      let c0 ← charAt tok 0
      if c0 ≠ ch '-' then some (-1, s)
      else
        let c1 ← charAt tok 1
        if c1 = 0 then some (-1, s)
        else if strcmp tok (cstr "--") = 0 then some (-1, { s with optind := s.optind + 1 })
        else getopt_scan argv optstring s
  else getopt_scan argv optstring s

/-- The record `struct option` (lines 86-91); `flag` is the address of the
cell it points to, `none` for `NULL`. -/
structure option where
  name : List Int
  has_arg : Int
  flag : Option Nat
  val : Int

/-- The constant `no_argument`. -/
def no_argument : Int := 0
/-- The constant `required_argument`. -/
def required_argument : Int := 1
/-- The constant `optional_argument`. -/
def optional_argument : Int := 2

/-- The `static int sp = 1` of `getopt_long` (line 103): a variable of its own,
never assigned, so it is `1` at every call. -/
def getopt_long_sp : Nat := 1

/-- The `len` of line 121, `eq ? (size_t)(eq - arg) : strlen(arg)` with
`eq = strchr(arg, '=')`. -/
def name_len (arg : List Int) : Nat :=
  match strchr arg (ch '=') with
  | some k => k
  | none => arg.length

/-- The test of lines 124-125,
`strncmp(arg, name, len) == 0 && name[len] == '\0'`; `none` when `name[len]`
is read out of bounds. -/
def name_matches (arg name : List Int) (len : Nat) : Option Bool :=
  if strncmp arg name len = 0 then (charAt name len).map (fun e => decide (e = 0))
  else some false

/-- The search of the loop of line 123 from entry `i` on: the position and the
entry of the first match, `some none` when the terminating entry is reached. -/
def find_match (arg : List Int) (len : Nat) : List option → Nat → Option (Option (Nat × option))
  | [], _ => some none
  | o :: rest, i => do
    let m ← name_matches arg o.name len
    if m then some (some (i, o)) else find_match arg len rest (i + 1)

/-- The loop of line 123, `for (i = 0; longopts && longopts[i].name; i++)`: a
null `longopts` is not searched. -/
def long_lookup (longopts : Option (List option)) (arg : List Int) (len : Nat) :
    Option (Option (Nat × option)) :=
  match longopts with
  | none => some none
  | some os => find_match arg len os 0

/-- Lines 126-127 of `getopt_long`: `if (longindex) *longindex = i;`. -/
def set_longindex (longindex : Bool) (i : Nat) (s : State) : State :=
  if longindex then { s with longindex := Int.ofNat i } else s

/-- Lines 149-155 of `getopt_long`: `optind++`, then the value of the entry is
stored through `flag` and 0 returned, or the value is returned. -/
def long_return (o : option) (s : State) : Int × State :=
  let s := { s with optind := s.optind + 1 }
  match o.flag with
  | some a => (0, { s with flags := fun b => if b = a then o.val else s.flags b })
  | none => (o.val, s)

/-- Lines 126-155 of `getopt_long`: entry `o` at position `i` has matched;
`eq` is the index of the first `=` of `arg`, if any. The argument is resolved
first: `Sum.inl` is the return of line 141, `Sum.inr` goes on to line 149. -/
def long_found (argv : List (List Int)) (arg : List Int) (eq : Option Nat) (longindex : Bool)
    (i : Nat) (o : option) (s : State) : Option (Int × State) := do
  let s := set_longindex longindex i s
  let inline := eq.map (fun k => arg.drop (k + 1))
  let res ←
    if o.has_arg = required_argument then
      if eq ≠ none then some (Sum.inr { s with optarg := inline })
      else if s.optind + 1 < argv.length then do
        let val ← argv[s.optind + 1]?
        some (Sum.inr { s with optind := s.optind + 1, optarg := some val })
      else do
        let s ← diagnose argv s (fun prog => msg_requires_long prog o.name)
        some (Sum.inl { s with optind := s.optind + 1 })
    else if o.has_arg = optional_argument then
      some (Sum.inr { s with optarg := inline })
    else
      some (Sum.inr { s with optarg := none })
  match res with
  | Sum.inl s => some (ch '?', s)
  | Sum.inr s => some (long_return o s)

/-- Lines 119-163 of `getopt_long`: the token at `optind` has the shape
`--something`. -/
def getopt_long_scan (argv : List (List Int)) (longopts : Option (List option))
    (longindex : Bool) (tok : List Int) (s : State) : Option (Int × State) := do
  let arg := tok.drop 2
  let eq := strchr arg (ch '=')
  let len := name_len arg
  let found ← long_lookup longopts arg len
  match found with
  | some (i, o) => long_found argv arg eq longindex i o s
  | none =>
    let s ← diagnose argv s (fun prog => msg_unrecognized prog arg)
    some (ch '?', { s with optind := s.optind + 1 })

/-- The function `getopt_long` (lines 99-169); `longindex` tells whether the
pointer of that name is non-null. -/
def getopt_long (argv : List (List Int)) (optstring : List Int) (longopts : Option (List option))
    (longindex : Bool) (s : State) : Option (Int × State) :=
  if getopt_long_sp = 1 then
    if s.optind ≥ argv.length then some (-1, s)
    else do
      let tok ← argv[s.optind]?
      let c0 ← charAt tok 0
      if c0 ≠ ch '-' then some (-1, s)
      else if strcmp tok (cstr "--") = 0 then some (-1, { s with optind := s.optind + 1 })
      else
        let c1 ← charAt tok 1
        if c1 = ch '-' then
          let c2 ← charAt tok 2
          if c2 ≠ 0 then getopt_long_scan argv longopts longindex tok s
          else getopt argv optstring s
        else getopt argv optstring s
  else getopt argv optstring s

/-! ## Vocabulary of the specification -/

/-- A token the scanners take for options: it begins with `-`, is not `-` alone
and is not the terminator `--` (the tests of lines 37-41). -/
def optionToken (tok : List Int) : Prop :=
  tok.head? = some (ch '-') ∧ 2 ≤ tok.length ∧ tok ≠ cstr "--"

instance (tok : List Int) : Decidable (optionToken tok) := by
  unfold optionToken
  infer_instance

/-- A token of the shape `--something`, which `getopt_long` takes for a long
option (the test of line 118). -/
def longShaped : List Int → Bool
  | a :: b :: x :: _ => a == ch '-' && b == ch '-' && x != 0
  | _ => false

/-- A short-option specification that is a non-empty C string. -/
def validSpec (optstring : List Int) : Prop :=
  optstring ≠ [] ∧ (0 : Int) ∉ optstring

instance (optstring : List Int) : Decidable (validSpec optstring) := by
  unfold validSpec
  infer_instance

/-- The letter `c` requires a value: its first occurrence in the specification
is immediately followed by `:` (the test of line 61). -/
def takesValue (optstring : List Int) (c : Int) : Prop :=
  optstring[optstring.indexOf c + 1]? = some (ch ':')

instance (optstring : List Int) (c : Int) : Decidable (takesValue optstring c) := by
  unfold takesValue
  infer_instance

/-- The part of `r` before its first `=`, all of `r` when it has none. -/
def name_part (r : List Int) : List Int :=
  r.takeWhile (fun x => x != ch '=')

/-- The text after the first `=` of `r`, when `r` has one. -/
def inline_value (r : List Int) : Option (List Int) :=
  if ch '=' ∈ r then some (r.drop (r.indexOf (ch '=') + 1)) else none

/-- The state after `if (opterr) fprintf(stderr, ...)` has written `text`, or
nothing when diagnostics are off. -/
def diagnosed (s : State) (text : List Int) : State :=
  if s.opterr ≠ 0 then fprintf_stderr s text else s

/-- The results and the final state of `n` successive calls of a scanner. -/
def run_calls (scan : State → Option (Int × State)) : Nat → State → Option (List Int × State)
  | 0, s => some ([], s)
  | n + 1, s =>
    match run_calls scan n s with
    | none => none
    | some (rs, s1) =>
      match scan s1 with
      | none => none
      | some (r, s2) => some (rs ++ [r], s2)

/-- The cursor expected after `k` letters of the cluster `"-" ++ w` at index 1
have been returned: still on the token while letters remain, on the next
token after the last one. -/
def cluster_state (s : State) (w : List Int) (k : Nat) : State :=
  { s with
    optind := if k < w.length then 1 else 2
    sp := if k < w.length then k + 1 else 1
    optarg := if k = 0 then s.optarg else none
    optopt := if k = 0 then s.optopt else w.getD (k - 1) 0 }

/-- One call of a session that uses both scanners: `getopt_long` when `long`
is set, `getopt` otherwise. -/
def scan_call (argv : List (List Int)) (optstring : List Int) (lo : Option (List option))
    (li : Bool) (long : Bool) (s : State) : Option (Int × State) :=
  if long then getopt_long argv optstring lo li s else getopt argv optstring s

/-- The results and the final state of a sequence of calls on one vector, each
of `getopt` or of `getopt_long` as the list tells, in that order. -/
def session (argv : List (List Int)) (optstring : List Int) (lo : Option (List option))
    (li : Bool) : List Bool → State → Option (List Int × State)
  | [], s => some ([], s)
  | b :: bs, s =>
    match scan_call argv optstring lo li b s with
    | none => none
    | some (r, s1) =>
      match session argv optstring lo li bs s1 with
      | none => none
      | some (rs, s2) => some (r :: rs, s2)

/-- The cursor is at the start of a token, or on an existing character, after
the first, of the token at `optind`, which begins with `-`. -/
def cursorOk (argv : List (List Int)) (s : State) : Prop :=
  s.sp = 1 ∨
    ∃ tok, argv[s.optind]? = some tok ∧ tok.head? = some (ch '-') ∧
      1 ≤ s.sp ∧ s.sp < tok.length

/-- The number of characters the cursor has not passed: those of the tokens
from `optind` on, less the `sp - 1` characters passed in the token at
`optind`. -/
def remaining (argv : List (List Int)) (s : State) : Nat :=
  ((argv.drop s.optind).map List.length).sum + 1 - s.sp

/-- The cursor `s1` is further than `s`, which is on the token `tok`: on the
next character of `tok`, or at the start of one of the next two tokens, within
the vector. -/
def stepped (argv : List (List Int)) (s s1 : State) (tok : List Int) : Prop :=
  (s1.optind = s.optind ∧ s1.sp = s.sp + 1 ∧ s.sp + 1 < tok.length) ∨
    (s1.sp = 1 ∧ s.optind < s1.optind ∧ s1.optind ≤ argv.length ∧ s1.optind ≤ s.optind + 2)

/-- The result of a matched entry (lines 151-155): 0 when its value goes to
a flag cell, the value otherwise. -/
def long_result (o : option) : Int :=
  match o.flag with
  | some _ => 0
  | none => o.val

/-- The flag cells after a matched entry has been delivered (lines 151-152):
the value of the entry is stored in the cell its `flag` points to. -/
def flags_after (o : option) (flags : Nat → Int) : Nat → Int :=
  match o.flag with
  | some a => fun b => if b = a then o.val else flags b
  | none => flags

/-- Every token of the vector is a C string: no NUL inside. -/
def wellFormed (argv : List (List Int)) : Prop :=
  ∀ t ∈ argv, (0 : Int) ∉ t

instance (argv : List (List Int)) : Decidable (wellFormed argv) := by
  unfold wellFormed
  infer_instance

/-- The cursor of a session of `getopt_long` alone: at the start of a token, or
on an existing character, after the first, of a token that begins with `-` and
is not of the shape `--something`. -/
def cursorOkLong (argv : List (List Int)) (s : State) : Prop :=
  s.sp = 1 ∨
    ∃ tok, argv[s.optind]? = some tok ∧ tok.head? = some (ch '-') ∧ longShaped tok = false ∧
      1 ≤ s.sp ∧ s.sp < tok.length

/-- The number of characters of the tokens of a vector. -/
def chars (argv : List (List Int)) : Nat :=
  (argv.map List.length).sum

/-! ## C strings -/

theorem charAt_of_getElem? {tok : List Int} {j : Nat} {c : Int} (h : tok[j]? = some c) :
    charAt tok j = some c := by
  induction tok generalizing j with
  | nil => simp at h
  | cons x t ih =>
    cases j with
    | zero => simpa [charAt] using h
    | succ j => simpa [charAt] using ih (by simpa using h)

theorem charAt_length (tok : List Int) : charAt tok tok.length = some 0 := by
  induction tok with
  | nil => rfl
  | cons x t ih => simpa [charAt] using ih

theorem charAt_of_lt {tok : List Int} {j : Nat} (h : j < tok.length) :
    charAt tok j = some tok[j] :=
  charAt_of_getElem? (List.getElem?_eq_getElem h)

theorem charAt_ne_zero {tok : List Int} (hnul : (0 : Int) ∉ tok) {j : Nat} (h : j < tok.length) :
    ∃ d, charAt tok j = some d ∧ d ≠ 0 := by
  refine ⟨tok[j], charAt_of_lt h, ?_⟩
  intro h0
  exact hnul (h0 ▸ List.getElem_mem h)

theorem strchr_of_mem {s : List Int} {c : Int} (h : c ∈ s) : strchr s c = some (s.indexOf c) := by
  induction s with
  | nil => simp at h
  | cons x t ih =>
    by_cases hx : x = c
    · subst hx; simp [strchr]
    · have hc : c ∈ t := by
        rcases List.mem_cons.mp h with h | h
        · exact absurd h.symm hx
        · exact h
      simp [strchr, hx, ih hc, List.indexOf_cons_ne _ hx]

theorem strchr_of_not_mem {s : List Int} {c : Int} (h : c ∉ s) (h0 : c ≠ 0) : strchr s c = none := by
  induction s with
  | nil => simp [strchr, h0]
  | cons x t ih =>
    have hx : x ≠ c := fun e => h (e ▸ List.mem_cons_self _ _)
    have hc : c ∉ t := fun e => h (List.mem_cons_of_mem _ e)
    simp [strchr, hx, ih hc]

theorem strcmp_eq_zero_iff (a b : List Int) : strcmp a b = 0 ↔ a = b := by
  induction a generalizing b with
  | nil => cases b <;> simp [strcmp]
  | cons x t ih =>
    cases b with
    | nil => simp [strcmp]
    | cons y u =>
      by_cases hxy : x = y
      · simp [strcmp, hxy, ih]
      · by_cases hlt : x % 256 < y % 256 <;> simp [strcmp, hxy, hlt]

/-! ## The short-option scanner -/

theorem getopt_of_scan {argv : List (List Int)} {optstring : List Int} {s : State}
    {tok : List Int} {c : Int} (htok : argv[s.optind]? = some tok)
    (hc : charAt tok s.sp = some c) (hc0 : c ≠ 0)
    (hfresh : s.sp = 1 → tok.head? = some (ch '-') ∧ tok ≠ cstr "--") :
    getopt argv optstring s = getopt_scan argv optstring s := by
  unfold getopt
  split
  · next h1 =>
    obtain ⟨hd, hne⟩ := hfresh h1
    have hlt : s.optind < argv.length := by
      rcases Nat.lt_or_ge s.optind argv.length with h | h
      · exact h
      · rw [List.getElem?_eq_none h] at htok; cases htok
    have h0 : charAt tok 0 = some (ch '-') := by
      cases tok with
      | nil => simp at hd
      | cons x t => simpa [charAt] using hd
    rw [h1] at hc
    have hs : strcmp tok (cstr "--") ≠ 0 := fun e => hne ((strcmp_eq_zero_iff _ _).mp e)
    simp [Nat.not_le.mpr hlt, htok, h0, hc, hc0, hs]
  · rfl

theorem getElem?_ne_zero {tok : List Int} (hnul : (0 : Int) ∉ tok) {j : Nat} {c : Int}
    (h : tok[j]? = some c) : c ≠ 0 := by
  intro h0
  subst h0
  exact hnul (List.getElem?_mem h)


theorem diagnose_cons (prog : List Int) (rest : List (List Int)) (s : State)
    (text : List Int → List Int) :
    diagnose (prog :: rest) s text = some (diagnosed s (text prog)) := by
  unfold diagnose diagnosed
  split <;> simp

theorem advance_of_lt {tok : List Int} (hnul : (0 : Int) ∉ tok) {s : State}
    (h : s.sp + 1 < tok.length) : advance tok s = some { s with sp := s.sp + 1 } := by
  obtain ⟨d, hd, hd0⟩ := charAt_ne_zero hnul h
  simp [advance, hd, hd0]

theorem advance_of_eq {tok : List Int} {s : State}
    (h : s.sp + 1 = tok.length) :
    advance tok s = some { s with sp := 1, optind := s.optind + 1 } := by
  have hd : charAt tok (s.sp + 1) = some 0 := h ▸ charAt_length tok
  simp [advance, hd]

theorem lt_length_of_getElem? {α : Type} {l : List α} {i : Nat} {a : α} (h : l[i]? = some a) :
    i < l.length := by
  rcases Nat.lt_or_ge i l.length with h1 | h1
  · exact h1
  · rw [List.getElem?_eq_none h1] at h; cases h

/-- Lines 50-59: a character that is `:` or is not in `optstring`. -/
theorem getopt_scan_illegal {prog : List Int} {rest : List (List Int)} {optstring : List Int}
    {s : State} {tok : List Int} {c : Int}
    (htok : (prog :: rest)[s.optind]? = some tok) (hnul : (0 : Int) ∉ tok)
    (hc : tok[s.sp]? = some c) (hbad : c = ch ':' ∨ c ∉ optstring) :
    getopt_scan (prog :: rest) optstring s =
      (advance tok (diagnosed { s with optopt := c } (msg_illegal prog c))).map
        (fun s1 => (ch '?', s1)) := by
  have hc0 : c ≠ 0 := getElem?_ne_zero hnul hc
  have hcA : charAt tok s.sp = some c := charAt_of_getElem? hc
  have hcond : c = ch ':' ∨ strchr optstring c = none := by
    rcases hbad with h | h
    · exact Or.inl h
    · exact Or.inr (strchr_of_not_mem h hc0)
  simp only [getopt_scan, htok, hcA, Option.bind_eq_bind, Option.some_bind, hcond, if_true,
    diagnose_cons]
  cases advance tok (diagnosed { s with optopt := c } (msg_illegal prog c)) <;> rfl

/-- Lines 75-81: a letter of `optstring` that takes no value. -/
theorem getopt_scan_plain {argv : List (List Int)} {optstring : List Int}
    {s : State} {tok : List Int} {c : Int}
    (htok : argv[s.optind]? = some tok)
    (hc : tok[s.sp]? = some c) (hmem : c ∈ optstring) (hcolon : c ≠ ch ':')
    (hno : ¬ takesValue optstring c) :
    getopt_scan argv optstring s =
      (advance tok { s with optopt := c }).map (fun s1 => (c, { s1 with optarg := none })) := by
  have hcA : charAt tok s.sp = some c := charAt_of_getElem? hc
  have hcp : strchr optstring c = some (optstring.indexOf c) := strchr_of_mem hmem
  have hi : optstring.indexOf c < optstring.length := List.indexOf_lt_length.mpr hmem
  obtain ⟨nxt, hnx, hne⟩ : ∃ nxt, charAt optstring (optstring.indexOf c + 1) = some nxt ∧
      nxt ≠ ch ':' := by
    rcases Nat.lt_or_ge (optstring.indexOf c + 1) optstring.length with h | h
    · refine ⟨_, charAt_of_lt h, ?_⟩
      intro e
      apply hno
      unfold takesValue
      rw [List.getElem?_eq_getElem h, e]
    · have : optstring.indexOf c + 1 = optstring.length := by omega
      exact ⟨0, this ▸ charAt_length _, by decide⟩
  simp only [getopt_scan, htok, hcA, Option.bind_eq_bind, Option.some_bind, hcp, hnx, hne,
    hcolon, false_or, if_false, reduceCtorEq]
  cases advance tok { s with optopt := c } <;> rfl

/-- Lines 64-70: a letter that takes a value ends the last token. -/
theorem getopt_scan_missing {prog : List Int} {rest : List (List Int)} {optstring : List Int}
    {s : State} {tok : List Int} {c : Int}
    (htok : (prog :: rest)[s.optind]? = some tok)
    (hc : tok[s.sp]? = some c) (hval : takesValue optstring c) (hcolon : c ≠ ch ':')
    (hend : s.sp + 1 = tok.length) (hlast : s.optind + 1 = (prog :: rest).length) :
    getopt_scan (prog :: rest) optstring s =
      some (ch '?', { diagnosed { s with optopt := c, optind := s.optind + 1 }
                        (msg_requires_short prog c) with sp := 1 }) := by
  have hcA : charAt tok s.sp = some c := charAt_of_getElem? hc
  have hmem : c ∈ optstring := by
    unfold takesValue at hval
    by_contra hn
    rw [List.indexOf_eq_length.mpr hn, List.getElem?_eq_none (Nat.le_succ _)] at hval
    cases hval
  have hcp : strchr optstring c = some (optstring.indexOf c) := strchr_of_mem hmem
  have hnx : charAt optstring (optstring.indexOf c + 1) = some (ch ':') := charAt_of_getElem? hval
  have hd : charAt tok (s.sp + 1) = some 0 := hend ▸ charAt_length tok
  simp [getopt_scan, htok, hcA, hcp, hnx, hcolon, hd, hlast, diagnose_cons]

theorem mem_of_takesValue {optstring : List Int} {c : Int} (h : takesValue optstring c) :
    c ∈ optstring := by
  unfold takesValue at h
  by_contra hn
  rw [List.indexOf_eq_length.mpr hn, List.getElem?_eq_none (Nat.le_succ _)] at h
  cases h

/-- Lines 61-63: a letter that takes a value, with text after it in the token. -/
theorem getopt_scan_attached {argv : List (List Int)} {optstring : List Int}
    {s : State} {tok : List Int} {c : Int}
    (htok : argv[s.optind]? = some tok) (hnul : (0 : Int) ∉ tok)
    (hc : tok[s.sp]? = some c) (hval : takesValue optstring c) (hcolon : c ≠ ch ':')
    (hlt : s.sp + 1 < tok.length) :
    getopt_scan argv optstring s =
      some (c, { s with optopt := c, optarg := some (tok.drop (s.sp + 1)),
                        optind := s.optind + 1, sp := 1 }) := by
  have hcA : charAt tok s.sp = some c := charAt_of_getElem? hc
  have hcp : strchr optstring c = some (optstring.indexOf c) :=
    strchr_of_mem (mem_of_takesValue hval)
  have hnx : charAt optstring (optstring.indexOf c + 1) = some (ch ':') := charAt_of_getElem? hval
  obtain ⟨d, hd, hd0⟩ := charAt_ne_zero hnul hlt
  simp [getopt_scan, htok, hcA, hcp, hnx, hcolon, hd, hd0]

/-- Lines 71-74: a letter that takes a value ends its token and a token follows. -/
theorem getopt_scan_separate {argv : List (List Int)} {optstring : List Int}
    {s : State} {tok val : List Int} {c : Int}
    (htok : argv[s.optind]? = some tok)
    (hc : tok[s.sp]? = some c) (hval : takesValue optstring c) (hcolon : c ≠ ch ':')
    (hend : s.sp + 1 = tok.length) (hnext : argv[s.optind + 1]? = some val) :
    getopt_scan argv optstring s =
      some (c, { s with optopt := c, optarg := some val, optind := s.optind + 2, sp := 1 }) := by
  have hcA : charAt tok s.sp = some c := charAt_of_getElem? hc
  have hcp : strchr optstring c = some (optstring.indexOf c) :=
    strchr_of_mem (mem_of_takesValue hval)
  have hnx : charAt optstring (optstring.indexOf c + 1) = some (ch ':') := charAt_of_getElem? hval
  have hd : charAt tok (s.sp + 1) = some 0 := hend ▸ charAt_length tok
  have hlt : s.optind + 1 < argv.length := lt_length_of_getElem? hnext
  simp [getopt_scan, htok, hcA, hcp, hnx, hcolon, hd, hnext, Nat.not_le.mpr hlt]


theorem diagnosed_fields (s : State) (text : List Int) :
    (diagnosed s text).optarg = s.optarg ∧ (diagnosed s text).optind = s.optind ∧
    (diagnosed s text).opterr = s.opterr ∧ (diagnosed s text).optopt = s.optopt ∧
    (diagnosed s text).sp = s.sp ∧ (diagnosed s text).flags = s.flags ∧
    (diagnosed s text).longindex = s.longindex := by
  unfold diagnosed fprintf_stderr
  split <;> simp

/-- Whenever `getopt_scan` reads a character of the token it returns, with that
character in `optopt`. -/
theorem getopt_scan_optopt {prog : List Int} {rest : List (List Int)} (optstring : List Int)
    {s : State} {tok : List Int} {c : Int}
    (htok : (prog :: rest)[s.optind]? = some tok) (hnul : (0 : Int) ∉ tok)
    (hc : tok[s.sp]? = some c) :
    ∃ r s1, getopt_scan (prog :: rest) optstring s = some (r, s1) ∧ s1.optopt = c := by
  have hsp : s.sp < tok.length := lt_length_of_getElem? hc
  have hadv : ∀ s0 : State, s0.sp = s.sp → s0.optopt = c →
      ∃ s1, advance tok s0 = some s1 ∧ s1.optopt = c := by
    intro s0 h0 hopt
    rcases Nat.lt_or_ge (s0.sp + 1) tok.length with h | h
    · exact ⟨_, advance_of_lt hnul h, hopt⟩
    · exact ⟨_, advance_of_eq (by omega), hopt⟩
  by_cases hbad : c = ch ':' ∨ c ∉ optstring
  · obtain ⟨s1, h1, h2⟩ := hadv (diagnosed { s with optopt := c } (msg_illegal prog c))
      (diagnosed_fields _ _).2.2.2.2.1 (diagnosed_fields _ _).2.2.2.1
    exact ⟨_, s1, by rw [getopt_scan_illegal htok hnul hc hbad, h1]; rfl, h2⟩
  · have hcolon : c ≠ ch ':' := fun e => hbad (Or.inl e)
    have hmem : c ∈ optstring := by
      by_contra hn
      exact hbad (Or.inr hn)
    by_cases hval : takesValue optstring c
    · rcases Nat.lt_or_ge (s.sp + 1) tok.length with h | h
      · exact ⟨_, _, getopt_scan_attached htok hnul hc hval hcolon h, rfl⟩
      · have hend : s.sp + 1 = tok.length := by omega
        rcases Nat.lt_or_ge (s.optind + 1) (prog :: rest).length with h2 | h2
        · exact ⟨_, _, getopt_scan_separate htok hc hval hcolon hend
            (List.getElem?_eq_getElem h2), rfl⟩
        · have hlast : s.optind + 1 = (prog :: rest).length := by
            have := lt_length_of_getElem? htok
            omega
          exact ⟨_, _, getopt_scan_missing htok hc hval hcolon hend hlast,
            (diagnosed_fields _ _).2.2.2.1⟩
    · obtain ⟨s1, h1, h2⟩ := hadv { s with optopt := c } rfl rfl
      exact ⟨c, { s1 with optarg := none },
        by rw [getopt_scan_plain htok hc hmem hcolon hval, h1]; rfl, h2⟩


/-- A letter that takes no value, at the level of `getopt`. -/
theorem getopt_plain_letter {argv : List (List Int)} {optstring : List Int} {s : State}
    {tok : List Int} {c : Int}
    (htok : argv[s.optind]? = some tok) (hnul : (0 : Int) ∉ tok)
    (hc : tok[s.sp]? = some c) (hmem : c ∈ optstring) (hcolon : c ≠ ch ':')
    (hno : ¬ takesValue optstring c)
    (hfresh : s.sp = 1 → tok.head? = some (ch '-') ∧ tok ≠ cstr "--") :
    (s.sp + 1 < tok.length →
      getopt argv optstring s = some (c, { s with optopt := c, sp := s.sp + 1, optarg := none })) ∧
    (s.sp + 1 = tok.length →
      getopt argv optstring s =
        some (c, { s with optopt := c, sp := 1, optind := s.optind + 1, optarg := none })) := by
  rw [getopt_of_scan htok (charAt_of_getElem? hc) (getElem?_ne_zero hnul hc) hfresh,
    getopt_scan_plain htok hc hmem hcolon hno]
  refine ⟨fun hlt => ?_, fun hend => ?_⟩
  · rw [advance_of_lt hnul (s := { s with optopt := c }) hlt]; rfl
  · rw [advance_of_eq (s := { s with optopt := c }) hend]; rfl

theorem cluster_step (prog : List Int) (optstring w : List Int) (s : State)
    (hnul : (0 : Int) ∉ w)
    (hall : ∀ c ∈ w, c ≠ ch '-' ∧ c ≠ ch ':' ∧ c ∈ optstring ∧ ¬ takesValue optstring c)
    (k : Nat) (hk : k < w.length) :
    getopt [prog, ch '-' :: w] optstring (cluster_state s w k) =
      some (w[k], cluster_state s w (k + 1)) := by
  have hmemk : w[k] ∈ w := List.getElem_mem hk
  obtain ⟨hdash, hcolon, hin, hno⟩ := hall _ hmemk
  have htok : [prog, ch '-' :: w][(cluster_state s w k).optind]? = some (ch '-' :: w) := by
    simp [cluster_state, hk]
  have hnul2 : (0 : Int) ∉ ch '-' :: w := by
    intro h
    rcases List.mem_cons.mp h with h | h
    · exact absurd h (by decide)
    · exact hnul h
  have hc : (ch '-' :: w)[(cluster_state s w k).sp]? = some w[k] := by
    simp [cluster_state, hk]
  have hfresh : (cluster_state s w k).sp = 1 →
      (ch '-' :: w).head? = some (ch '-') ∧ ch '-' :: w ≠ cstr "--" := by
    intro h1
    have hk0 : k = 0 := by simpa [cluster_state, hk] using h1
    subst hk0
    refine ⟨rfl, ?_⟩
    intro e
    cases w with
    | nil => simp at hk
    | cons x t =>
      have hx : x = ch '-' := by
        have := congrArg (fun l => l[1]?) e
        simpa [cstr] using this
      exact hdash (by simpa using hx)
  obtain ⟨h1, h2⟩ := getopt_plain_letter htok hnul2 hc hin hcolon hno hfresh
  rcases Nat.lt_or_ge (k + 1) w.length with hlt | hge
  · rw [h1 (by simp [cluster_state, hk, hlt])]
    simp [cluster_state, hk, hlt]
  · rw [h2 (by simp [cluster_state, hk]; omega)]
    have : ¬ (k + 1 < w.length) := by omega
    simp [cluster_state, hk, this]


/-- The guard of lines 36-45 at a token that is not an option token. -/
theorem getopt_not_option {argv : List (List Int)} (optstring : List Int) {s : State}
    (hsp : s.sp = 1) (h : ∀ t, argv[s.optind]? = some t → ¬ optionToken t) :
    ∃ s1, getopt argv optstring s = some (-1, s1) := by
  unfold getopt
  rw [if_pos hsp]
  by_cases hge : s.optind ≥ argv.length
  · exact ⟨s, by rw [if_pos hge]⟩
  · rw [if_neg hge]
    have hlt : s.optind < argv.length := Nat.not_le.mp hge
    have hno := h _ (List.getElem?_eq_getElem hlt)
    rw [List.getElem?_eq_getElem hlt]
    generalize argv[s.optind] = t at hno
    unfold optionToken at hno
    cases t with
    | nil => exact ⟨s, by simp [charAt, show (0 : Int) ≠ ch '-' from by decide]⟩
    | cons x t =>
      by_cases hx : x = ch '-'
      · subst hx
        cases t with
        | nil => exact ⟨s, by simp [charAt]⟩
        | cons y u =>
          have he : ch '-' :: y :: u = cstr "--" := by
            by_contra hne
            exact hno ⟨rfl, by simp, hne⟩
          have hy : y = ch '-' ∧ u = [] := by
            have h2 : y :: u = [ch '-'] := List.tail_eq_of_cons_eq he
            exact ⟨List.head_eq_of_cons_eq h2, List.tail_eq_of_cons_eq h2⟩
          obtain ⟨hy1, hy2⟩ := hy
          subst hy1 hy2
          exact ⟨{ s with optind := s.optind + 1 }, by
            simp [charAt, show strcmp [ch '-', ch '-'] (cstr "--") = 0 from by decide,
              show ch '-' ≠ 0 from by decide]⟩
      · exact ⟨s, by simp [charAt, hx]⟩

/-! ## The long-option lookup -/

theorem strncmp_eq_zero_iff (a b : List Int) (n : Nat) :
    strncmp a b n = 0 ↔ a.take n = b.take n := by
  induction n generalizing a b with
  | zero => simp [strncmp]
  | succ n ih =>
    cases a with
    | nil => cases b <;> simp [strncmp]
    | cons x t =>
      cases b with
      | nil => simp [strncmp]
      | cons y u =>
        by_cases hxy : x = y
        · simp [strncmp, hxy, ih]
        · by_cases hlt : x % 256 < y % 256 <;> simp [strncmp, hxy, hlt]

theorem take_indexOf (r : List Int) (c : Int) :
    r.take (r.indexOf c) = r.takeWhile (fun x => x != c) := by
  induction r with
  | nil => rfl
  | cons x t ih =>
    by_cases hx : x = c
    · subst hx; simp
    · simp [List.indexOf_cons_ne _ hx, hx, ih]

theorem strchr_eq (r : List Int) : strchr r (ch '=') = if ch '=' ∈ r then some (r.indexOf (ch '=')) else none := by
  split
  · next h => exact strchr_of_mem h
  · next h => exact strchr_of_not_mem h (by decide)

theorem name_len_eq (r : List Int) : name_len r = r.indexOf (ch '=') := by
  unfold name_len
  rw [strchr_eq]
  split
  · next h => simp at h; simp [h]
  · next h =>
    have hn : ch '=' ∉ r := by
      intro hm
      simp [hm] at h
    exact (List.indexOf_eq_length.mpr hn).symm

theorem name_len_le (r : List Int) : name_len r ≤ r.length := by
  rw [name_len_eq]; exact List.indexOf_le_length

theorem take_name_len (r : List Int) : r.take (name_len r) = name_part r := by
  rw [name_len_eq]; exact take_indexOf r _

theorem length_name_part (r : List Int) : (name_part r).length = name_len r := by
  rw [← take_name_len, List.length_take, Nat.min_eq_left (name_len_le r)]

theorem strchr_eq_inline (r : List Int) :
    (strchr r (ch '=')).map (fun k => r.drop (k + 1)) = inline_value r := by
  rw [strchr_eq]
  unfold inline_value
  split <;> rfl

/-- The test of lines 124-125 on C strings: the entry name is exactly the first `len` characters
of `arg`. -/
theorem name_matches_eq {arg name : List Int} {len : Nat} (hlen : len ≤ arg.length)
    (hnul : (0 : Int) ∉ name) :
    name_matches arg name len = some (decide (name = arg.take len)) := by
  unfold name_matches
  by_cases h : strncmp arg name len = 0
  · rw [if_pos h]
    have ht : arg.take len = name.take len := (strncmp_eq_zero_iff _ _ _).mp h
    have hl : len ≤ name.length := by
      have := congrArg List.length ht
      simp [List.length_take, Nat.min_eq_left hlen] at this
      omega
    rcases Nat.lt_or_ge len name.length with h1 | h1
    · obtain ⟨d, hd, hd0⟩ := charAt_ne_zero hnul h1
      have hne : name ≠ arg.take len := by
        intro e
        have := congrArg List.length e
        simp [List.length_take, Nat.min_eq_left hlen] at this
        omega
      simp [hd, hd0, hne]
    · have he : len = name.length := by omega
      have hn : name = arg.take len := by
        rw [ht, he, List.take_length]
      rw [he, charAt_length]
      simp [← he, hn]
  · rw [if_neg h]
    have hne : name ≠ arg.take len := by
      intro e
      apply h
      rw [strncmp_eq_zero_iff, e]
      simp
    simp [hne]

/-- The loop of line 123 on C strings: it stops at the first entry whose name
is `arg.take len`. -/
theorem find_match_iff {arg : List Int} {len : Nat} (hlen : len ≤ arg.length)
    (os : List option) (hnames : ∀ o ∈ os, (0 : Int) ∉ o.name) (i0 i : Nat) (o : option) :
    find_match arg len os i0 = some (some (i, o)) ↔
      ∃ k, i = i0 + k ∧ os[k]? = some o ∧ o.name = arg.take len ∧
        ∀ j o1, j < k → os[j]? = some o1 → o1.name ≠ arg.take len := by
  induction os generalizing i0 with
  | nil => simp [find_match]
  | cons e rest ih =>
    have hrest : ∀ o ∈ rest, (0 : Int) ∉ o.name := fun o ho => hnames o (List.mem_cons_of_mem _ ho)
    simp only [find_match, name_matches_eq hlen (hnames e (List.mem_cons_self _ _)),
      Option.bind_eq_bind, Option.some_bind]
    by_cases he : e.name = arg.take len
    · simp only [he, decide_True, if_true]
      constructor
      · intro h
        simp only [Option.some.injEq, Prod.mk.injEq] at h
        obtain ⟨h1, h2⟩ := h
        subst h1 h2
        exact ⟨0, rfl, List.getElem?_cons_zero, he, fun j _ hj => absurd hj (Nat.not_lt_zero _)⟩
      · rintro ⟨k, hk, hget, _, hfirst⟩
        cases k with
        | zero =>
          simp only [List.getElem?_cons_zero, Option.some.injEq] at hget
          subst hget
          simp [hk]
        | succ k => exact absurd he (hfirst 0 e (Nat.succ_pos _) List.getElem?_cons_zero)
    · simp only [he, decide_False, Bool.false_eq_true, if_false]
      rw [ih hrest (i0 + 1)]
      constructor
      · rintro ⟨k, hk, hget, hn, hfirst⟩
        refine ⟨k + 1, by omega, by simpa using hget, hn, ?_⟩
        intro j o1 hj hj1
        cases j with
        | zero =>
          simp only [List.getElem?_cons_zero, Option.some.injEq] at hj1
          subst hj1; exact he
        | succ j => exact hfirst j o1 (by omega) (by simpa using hj1)
      · rintro ⟨k, hk, hget, hn, hfirst⟩
        cases k with
        | zero =>
          simp only [List.getElem?_cons_zero, Option.some.injEq] at hget
          subst hget; exact absurd hn he
        | succ k =>
          refine ⟨k, by omega, by simpa using hget, hn, ?_⟩
          intro j o1 hj hj1
          exact hfirst (j + 1) o1 (by omega) (by simpa using hj1)

theorem find_match_none {arg : List Int} {len : Nat} (hlen : len ≤ arg.length)
    (os : List option) (hnames : ∀ o ∈ os, (0 : Int) ∉ o.name)
    (hno : ∀ o ∈ os, o.name ≠ arg.take len) (i0 : Nat) :
    find_match arg len os i0 = some none := by
  induction os generalizing i0 with
  | nil => rfl
  | cons e rest ih =>
    simp only [find_match, name_matches_eq hlen (hnames e (List.mem_cons_self _ _)),
      Option.bind_eq_bind, Option.some_bind, hno e (List.mem_cons_self _ _), decide_False,
      Bool.false_eq_true, if_false]
    exact ih (fun o ho => hnames o (List.mem_cons_of_mem _ ho))
      (fun o ho => hno o (List.mem_cons_of_mem _ ho)) _


/-- Lines 106-118: a token of the shape `--something` goes to the long-option
lookup, whatever `sp` of `getopt` is. -/
theorem getopt_long_of_long {argv : List (List Int)} (optstring : List Int)
    (longopts : Option (List option)) (longindex : Bool) {s : State} {x : Int} {t : List Int}
    (htok : argv[s.optind]? = some (ch '-' :: ch '-' :: x :: t)) (hx : x ≠ 0) :
    getopt_long argv optstring longopts longindex s =
      getopt_long_scan argv longopts longindex (ch '-' :: ch '-' :: x :: t) s := by
  have hlt : s.optind < argv.length := lt_length_of_getElem? htok
  have hs : strcmp (ch '-' :: ch '-' :: x :: t) (cstr "--") ≠ 0 := by
    intro e
    have := (strcmp_eq_zero_iff _ _).mp e
    simp [cstr] at this
  simp [getopt_long, getopt_long_sp, Nat.not_le.mpr hlt, htok, charAt, hs, hx]

theorem cons_of_ne_nil {r : List Int} (hr : r ≠ []) (hnul : (0 : Int) ∉ r) :
    ∃ x t, r = x :: t ∧ x ≠ 0 := by
  cases r with
  | nil => exact absurd rfl hr
  | cons x t => exact ⟨x, t, rfl, fun e => hnul (e ▸ List.mem_cons_self _ _)⟩

/-- Lines 159-163: no entry, or no table. -/
theorem getopt_long_scan_unrecognized {prog : List Int} {rest : List (List Int)}
    (longopts : Option (List option)) (longindex : Bool) (s : State) (r : List Int)
    (hno : ∀ os, longopts = some os →
      (∀ o ∈ os, (0 : Int) ∉ o.name) ∧ ∀ o ∈ os, o.name ≠ name_part r) :
    getopt_long_scan (prog :: rest) longopts longindex (ch '-' :: ch '-' :: r) s =
      some (ch '?', { diagnosed s (msg_unrecognized prog r) with optind := s.optind + 1 }) := by
  have hfound : long_lookup longopts r (name_len r) = some none := by
    unfold long_lookup
    cases longopts with
    | none => rfl
    | some os =>
      obtain ⟨h1, h2⟩ := hno os rfl
      exact find_match_none (name_len_le r) os h1 (by rwa [take_name_len]) 0
  simp only [getopt_long_scan, List.drop_succ_cons, List.drop_zero, hfound, Option.bind_eq_bind,
    Option.some_bind, diagnose_cons]
  simp [(diagnosed_fields _ _).2.1]

/-- Lines 123-156: the first entry named as the token is handled by `long_found`. -/
theorem getopt_long_scan_found {argv : List (List Int)} (longindex : Bool) (s : State)
    {r : List Int} {os : List option} {i : Nat} {o : option}
    (hfound : find_match r (name_len r) os 0 = some (some (i, o))) :
    getopt_long_scan argv (some os) longindex (ch '-' :: ch '-' :: r) s =
      long_found argv r (strchr r (ch '=')) longindex i o s := by
  simp only [getopt_long_scan, List.drop_succ_cons, List.drop_zero, long_lookup, hfound,
    Option.bind_eq_bind, Option.some_bind]


@[simp] theorem diagnosed_optarg (s : State) (text : List Int) :
    (diagnosed s text).optarg = s.optarg := by
  unfold diagnosed fprintf_stderr
  split <;> rfl

@[simp] theorem diagnosed_optind (s : State) (text : List Int) :
    (diagnosed s text).optind = s.optind := by
  unfold diagnosed fprintf_stderr
  split <;> rfl

@[simp] theorem diagnosed_opterr (s : State) (text : List Int) :
    (diagnosed s text).opterr = s.opterr := by
  unfold diagnosed fprintf_stderr
  split <;> rfl

@[simp] theorem diagnosed_optopt (s : State) (text : List Int) :
    (diagnosed s text).optopt = s.optopt := by
  unfold diagnosed fprintf_stderr
  split <;> rfl

@[simp] theorem diagnosed_sp (s : State) (text : List Int) :
    (diagnosed s text).sp = s.sp := by
  unfold diagnosed fprintf_stderr
  split <;> rfl

@[simp] theorem diagnosed_flags (s : State) (text : List Int) :
    (diagnosed s text).flags = s.flags := by
  unfold diagnosed fprintf_stderr
  split <;> rfl

@[simp] theorem diagnosed_longindex (s : State) (text : List Int) :
    (diagnosed s text).longindex = s.longindex := by
  unfold diagnosed fprintf_stderr
  split <;> rfl

@[simp] theorem set_longindex_optarg (li : Bool) (i : Nat) (s : State) :
    (set_longindex li i s).optarg = s.optarg := by
  unfold set_longindex
  split <;> rfl

@[simp] theorem set_longindex_optind (li : Bool) (i : Nat) (s : State) :
    (set_longindex li i s).optind = s.optind := by
  unfold set_longindex
  split <;> rfl

@[simp] theorem set_longindex_opterr (li : Bool) (i : Nat) (s : State) :
    (set_longindex li i s).opterr = s.opterr := by
  unfold set_longindex
  split <;> rfl

@[simp] theorem set_longindex_optopt (li : Bool) (i : Nat) (s : State) :
    (set_longindex li i s).optopt = s.optopt := by
  unfold set_longindex
  split <;> rfl

@[simp] theorem set_longindex_sp (li : Bool) (i : Nat) (s : State) :
    (set_longindex li i s).sp = s.sp := by
  unfold set_longindex
  split <;> rfl

@[simp] theorem set_longindex_flags (li : Bool) (i : Nat) (s : State) :
    (set_longindex li i s).flags = s.flags := by
  unfold set_longindex
  split <;> rfl

@[simp] theorem set_longindex_stderr (li : Bool) (i : Nat) (s : State) :
    (set_longindex li i s).stderr = s.stderr := by
  unfold set_longindex
  split <;> rfl

@[simp] theorem set_longindex_longindex (li : Bool) (i : Nat) (s : State) :
    (set_longindex li i s).longindex = if li then Int.ofNat i else s.longindex := by
  unfold set_longindex
  split <;> rfl

@[simp] theorem long_return_optarg (o : option) (s : State) :
    (long_return o s).2.optarg = s.optarg := by
  unfold long_return
  cases o.flag <;> rfl

@[simp] theorem long_return_opterr (o : option) (s : State) :
    (long_return o s).2.opterr = s.opterr := by
  unfold long_return
  cases o.flag <;> rfl

@[simp] theorem long_return_optopt (o : option) (s : State) :
    (long_return o s).2.optopt = s.optopt := by
  unfold long_return
  cases o.flag <;> rfl

@[simp] theorem long_return_sp (o : option) (s : State) :
    (long_return o s).2.sp = s.sp := by
  unfold long_return
  cases o.flag <;> rfl

@[simp] theorem long_return_longindex (o : option) (s : State) :
    (long_return o s).2.longindex = s.longindex := by
  unfold long_return
  cases o.flag <;> rfl

@[simp] theorem long_return_stderr (o : option) (s : State) :
    (long_return o s).2.stderr = s.stderr := by
  unfold long_return
  cases o.flag <;> rfl

@[simp] theorem long_return_optind (o : option) (s : State) :
    (long_return o s).2.optind = s.optind + 1 := by
  unfold long_return
  cases o.flag <;> rfl

/-- Lines 129-131: a required argument given inline. -/
theorem long_found_required_inline (argv : List (List Int)) (arg : List Int) (k : Nat)
    (li : Bool) (i : Nat) {o : option} (s : State) (hreq : o.has_arg = required_argument) :
    long_found argv arg (some k) li i o s =
      some (long_return o { set_longindex li i s with optarg := some (arg.drop (k + 1)) }) := by
  simp [long_found, hreq]

/-- Lines 132-134: a required argument taken from the following token. -/
theorem long_found_required_next (argv : List (List Int)) (arg : List Int)
    (li : Bool) (i : Nat) {o : option} (s : State) {val : List Int}
    (hreq : o.has_arg = required_argument) (hnext : argv[s.optind + 1]? = some val) :
    long_found argv arg none li i o s =
      some (long_return o { set_longindex li i s with
                              optind := s.optind + 1, optarg := some val }) := by
  have hlt : s.optind + 1 < argv.length := lt_length_of_getElem? hnext
  simp [long_found, hreq, hlt, hnext]

/-- Lines 135-141: a required argument is missing. -/
theorem long_found_required_missing (prog : List Int) (rest : List (List Int)) (arg : List Int)
    (li : Bool) (i : Nat) {o : option} (s : State)
    (hreq : o.has_arg = required_argument) (hlast : (prog :: rest).length ≤ s.optind + 1) :
    long_found (prog :: rest) arg none li i o s =
      some (ch '?', { diagnosed (set_longindex li i s) (msg_requires_long prog o.name) with
                        optind := s.optind + 1 }) := by
  have hlt : ¬ (s.optind + 1 < rest.length + 1) := by simpa using Nat.not_lt.mpr hlast
  simp [long_found, hreq, hlt, diagnose_cons]

/-- Lines 143-144: an optional argument. -/
theorem long_found_optional (argv : List (List Int)) (arg : List Int) (eq : Option Nat)
    (li : Bool) (i : Nat) {o : option} (s : State) (hopt : o.has_arg = optional_argument) :
    long_found argv arg eq li i o s =
      some (long_return o { set_longindex li i s with
                              optarg := eq.map (fun k => arg.drop (k + 1)) }) := by
  have h : ¬ (optional_argument = required_argument) := by decide
  simp [long_found, hopt, h]

/-- Lines 145-147: no argument. -/
theorem long_found_none (argv : List (List Int)) (arg : List Int) (eq : Option Nat)
    (li : Bool) (i : Nat) {o : option} (s : State)
    (h1 : o.has_arg ≠ required_argument) (h2 : o.has_arg ≠ optional_argument) :
    long_found argv arg eq li i o s =
      some (long_return o { set_longindex li i s with optarg := none }) := by
  simp [long_found, h1, h2]

/-- A matched entry always returns; `optopt`, `sp` and `opterr` keep their values and the cell of
`longindex` holds the position of the entry when the pointer is given. -/
theorem long_found_fields (prog : List Int) (rest : List (List Int)) (arg : List Int)
    (eq : Option Nat) (li : Bool) (i : Nat) (o : option) (s : State) :
    ∃ ret s1, long_found (prog :: rest) arg eq li i o s = some (ret, s1) ∧
      s1.longindex = (if li then Int.ofNat i else s.longindex) ∧ s1.optopt = s.optopt ∧
      s1.sp = s.sp ∧ s1.opterr = s.opterr := by
  have key : ∀ x : State, x.longindex = (if li then Int.ofNat i else s.longindex) →
      x.optopt = s.optopt → x.sp = s.sp → x.opterr = s.opterr →
      ∃ ret s1, some (long_return o x) = some (ret, s1) ∧
        s1.longindex = (if li then Int.ofNat i else s.longindex) ∧ s1.optopt = s.optopt ∧
        s1.sp = s.sp ∧ s1.opterr = s.opterr := by
    intro x h1 h2 h3 h4
    exact ⟨(long_return o x).1, (long_return o x).2, rfl, by simp [h1], by simp [h2],
      by simp [h3], by simp [h4]⟩
  by_cases hreq : o.has_arg = required_argument
  · cases eq with
    | some k =>
      rw [long_found_required_inline _ _ _ _ _ _ hreq]
      exact key _ (by simp) (by simp) (by simp) (by simp)
    | none =>
      rcases Nat.lt_or_ge (s.optind + 1) (prog :: rest).length with h | h
      · rw [long_found_required_next _ _ _ _ _ hreq (List.getElem?_eq_getElem h)]
        exact key _ (by simp) (by simp) (by simp) (by simp)
      · rw [long_found_required_missing _ _ _ _ _ _ hreq h]
        exact ⟨_, _, rfl, by simp, by simp, by simp, by simp⟩
  · by_cases hopt : o.has_arg = optional_argument
    · rw [long_found_optional _ _ _ _ _ _ hopt]
      exact key _ (by simp) (by simp) (by simp) (by simp)
    · rw [long_found_none _ _ _ _ _ _ hreq hopt]
      exact key _ (by simp) (by simp) (by simp) (by simp)



theorem indexOf_append_eq (N V : List Int) (c : Int) (h : c ∉ N) :
    (N ++ c :: V).indexOf c = N.length := by
  induction N with
  | nil => simp
  | cons x t ih =>
    have hx : x ≠ c := fun e => h (e ▸ List.mem_cons_self _ _)
    have ht : c ∉ t := fun e => h (List.mem_cons_of_mem _ e)
    simp [List.indexOf_cons_ne _ hx, ih ht]

theorem name_part_inline (N V : List Int) (h : ch '=' ∉ N) :
    name_part (N ++ ch '=' :: V) = N := by
  rw [← take_name_len, name_len_eq, indexOf_append_eq N V _ h]
  simp

theorem strchr_inline (N V : List Int) (h : ch '=' ∉ N) :
    strchr (N ++ ch '=' :: V) (ch '=') = some N.length := by
  rw [strchr_of_mem (by simp), indexOf_append_eq N V _ h]

theorem name_part_plain (N : List Int) (h : ch '=' ∉ N) : name_part N = N := by
  rw [← take_name_len, name_len_eq, List.indexOf_eq_length.mpr h, List.take_length]

theorem strchr_plain (N : List Int) (h : ch '=' ∉ N) : strchr N (ch '=') = none :=
  strchr_of_not_mem h (by decide)


/-- Lines 36-40 and 106-108: past the end of the vector both scanners return -1
and change nothing. -/
theorem getopt_at_end (argv : List (List Int)) (optstring : List Int) (s : State)
    (hsp : s.sp = 1) (hend : argv.length ≤ s.optind) :
    getopt argv optstring s = some (-1, s) := by
  simp [getopt, hsp, hend]

theorem getopt_long_at_end (argv : List (List Int)) (optstring : List Int)
    (lo : Option (List option)) (li : Bool) (s : State) (hend : argv.length ≤ s.optind) :
    getopt_long argv optstring lo li s = some (-1, s) := by
  simp [getopt_long, getopt_long_sp, hend]

theorem getElem?_set_behind {argv : List (List Int)} {j k : Nat} (t : List Int) (h : j ≠ k) :
    (argv.set j t)[k]? = argv[k]? := by
  simp [List.getElem?_set, h]

/-- The scanners never look behind `optind`, but for the program name. -/
theorem getopt_set_behind (argv : List (List Int)) (optstring : List Int)
    (s : State) (j : Nat) (t : List Int) (h0 : 0 < j) (hj : j < s.optind) :
    getopt (argv.set j t) optstring s = getopt argv optstring s := by
  have h1 : (argv.set j t)[s.optind]? = argv[s.optind]? := getElem?_set_behind t (by omega)
  have h2 : (argv.set j t)[s.optind + 1]? = argv[s.optind + 1]? := getElem?_set_behind t (by omega)
  have h3 : (argv.set j t)[0]? = argv[0]? := getElem?_set_behind t (by omega)
  simp only [getopt, getopt_scan, diagnose, List.length_set, h1, h2, h3]

theorem getopt_long_set_behind (argv : List (List Int)) (optstring : List Int)
    (lo : Option (List option)) (li : Bool)
    (s : State) (j : Nat) (t : List Int) (h0 : 0 < j) (hj : j < s.optind) :
    getopt_long (argv.set j t) optstring lo li s = getopt_long argv optstring lo li s := by
  have h1 : (argv.set j t)[s.optind]? = argv[s.optind]? := getElem?_set_behind t (by omega)
  have h2 : (argv.set j t)[s.optind + 1]? = argv[s.optind + 1]? := getElem?_set_behind t (by omega)
  have h3 : (argv.set j t)[0]? = argv[0]? := getElem?_set_behind t (by omega)
  simp only [getopt_long, getopt_long_scan, long_found, set_longindex_optind,
    getopt_set_behind argv optstring s j t h0 hj, diagnose, List.length_set, h1, h2, h3]


theorem advance_optopt {tok : List Int} {s s1 : State} (h : advance tok s = some s1) :
    s1.optopt = s.optopt := by
  unfold advance at h
  cases hd : charAt tok (s.sp + 1) with
  | none => simp [hd] at h
  | some d =>
    simp only [hd, Option.bind_eq_bind, Option.some_bind] at h
    split at h <;> (cases h; rfl)

theorem diagnose_optopt {argv : List (List Int)} {s s1 : State} {text : List Int → List Int}
    (h : diagnose argv s text = some s1) : s1.optopt = s.optopt := by
  unfold diagnose at h
  split at h
  · cases hp : argv[0]? with
    | none => simp [hp] at h
    | some prog =>
      simp only [hp, Option.map_some', Option.some.injEq] at h
      subst h
      rfl
  · cases h; rfl

/-- Whatever `getopt_scan` returns, `optopt` is the character it read. -/
theorem getopt_scan_result_optopt {argv : List (List Int)} {optstring : List Int} {s s1 : State}
    {ret : Int} (h : getopt_scan argv optstring s = some (ret, s1)) :
    ∃ tok, argv[s.optind]? = some tok ∧ charAt tok s.sp = some s1.optopt := by
  unfold getopt_scan at h
  cases htok : argv[s.optind]? with
  | none => simp [htok] at h
  | some tok =>
    cases hc : charAt tok s.sp with
    | none => simp [htok, hc] at h
    | some c =>
      refine ⟨tok, rfl, ?_⟩
      suffices hs : s1.optopt = c by rw [hs, hc]
      simp only [htok, hc, Option.bind_eq_bind, Option.some_bind] at h
      split at h
      · cases hd : diagnose argv { s with optopt := c } (fun prog => msg_illegal prog c) with
        | none => simp [hd] at h
        | some s2 =>
          cases ha : advance tok s2 with
          | none => simp [hd, ha] at h
          | some s3 =>
            simp only [hd, ha, Option.some_bind, Option.some.injEq, Prod.mk.injEq] at h
            rw [← h.2, advance_optopt ha, diagnose_optopt hd]
      · cases hcp : strchr optstring c with
        | none => simp [hcp] at h
        | some i =>
          cases hn : charAt optstring (i + 1) with
          | none => simp [hcp, hn] at h
          | some nxt =>
            simp only [hcp, hn, Option.some_bind] at h
            split at h
            · cases hd : charAt tok (s.sp + 1) with
              | none => simp [hd] at h
              | some d =>
                simp only [hd, Option.some_bind] at h
                split at h
                · cases h; rfl
                · split at h
                  · cases hg : diagnose argv { s with optopt := c, optind := s.optind + 1 }
                        (fun prog => msg_requires_short prog c) with
                    | none => simp [hg] at h
                    | some s2 =>
                      simp only [hg, Option.some_bind, Option.some.injEq, Prod.mk.injEq] at h
                      rw [← h.2]
                      exact diagnose_optopt hg
                  · cases hv : argv[s.optind + 1]? with
                    | none => simp [hv] at h
                    | some val =>
                      simp only [hv, Option.some_bind, Option.some.injEq, Prod.mk.injEq] at h
                      rw [← h.2]
            · cases ha : advance tok { s with optopt := c } with
              | none => simp [ha] at h
              | some s3 =>
                simp only [ha, Option.some_bind, Option.some.injEq, Prod.mk.injEq] at h
                rw [← h.2]
                exact advance_optopt ha


/-- Lines 167-168: on a token that is not of the shape `--something`, whatever `getopt_long`
returns other than -1 is what `getopt` returns. -/
theorem getopt_long_delegates {argv : List (List Int)} {optstring : List Int}
    {lo : Option (List option)} {li : Bool} {s s1 : State} {tok : List Int} {ret : Int}
    (htok : argv[s.optind]? = some tok) (hshape : longShaped tok = false)
    (h : getopt_long argv optstring lo li s = some (ret, s1)) (hret : ret ≠ -1) :
    getopt argv optstring s = some (ret, s1) := by
  have hlt : s.optind < argv.length := lt_length_of_getElem? htok
  unfold getopt_long at h
  simp only [getopt_long_sp, if_true, ge_iff_le, Nat.not_le.mpr hlt, if_false, htok,
    Option.bind_eq_bind, Option.some_bind] at h
  cases h0 : charAt tok 0 with
  | none => simp [h0] at h
  | some c0 =>
    simp only [h0, Option.some_bind] at h
    split at h
    · cases h; exact absurd rfl hret
    · split at h
      · cases h; exact absurd rfl hret
      · cases h1 : charAt tok 1 with
        | none => simp [h1] at h
        | some c1 =>
          simp only [h1, Option.some_bind] at h
          split at h
          · cases h2 : charAt tok 2 with
            | none => simp [h2] at h
            | some c2 =>
              simp only [h2, Option.some_bind] at h
              split at h
              · next hc0 _ hc1 hc2 =>
                exfalso
                have hc0' : c0 = ch '-' := by simpa using hc0
                subst hc0' hc1
                match tok, h0, h1, h2, hshape with
                | a :: b :: x :: t, h0, h1, h2, hshape =>
                  simp only [charAt, Option.some.injEq] at h0 h1 h2
                  subst h0 h1 h2
                  simp [longShaped] at hshape
                  exact hc2 hshape
                | [a, b], _, _, h2, _ =>
                  simp only [charAt, Option.some.injEq] at h2
                  exact hc2 h2.symm
                | [a], _, h1, _, _ =>
                  simp only [charAt, Option.some.injEq] at h1
                  exact absurd h1.symm (by decide)
                | [], h0, _, _, _ =>
                  simp only [charAt, Option.some.injEq] at h0
                  exact absurd h0.symm (by decide)
              · exact h
          · exact h


/-- Whatever `getopt` returns other than -1, `optopt` is the character it read. -/
theorem getopt_result_optopt {argv : List (List Int)} {optstring : List Int} {s s1 : State}
    {ret : Int} (h : getopt argv optstring s = some (ret, s1)) (hret : ret ≠ -1) :
    ∃ tok, argv[s.optind]? = some tok ∧ charAt tok s.sp = some s1.optopt := by
  unfold getopt at h
  split at h
  · split at h
    · cases h; exact absurd rfl hret
    · cases htok : argv[s.optind]? with
      | none => simp [htok] at h
      | some tok =>
        simp only [htok, Option.bind_eq_bind, Option.some_bind] at h
        cases h0 : charAt tok 0 with
        | none => simp [h0] at h
        | some c0 =>
          simp only [h0, Option.some_bind] at h
          split at h
          · cases h; exact absurd rfl hret
          · cases h1 : charAt tok 1 with
            | none => simp [h1] at h
            | some c1 =>
              simp only [h1, Option.some_bind] at h
              split at h
              · cases h; exact absurd rfl hret
              · split at h
                · cases h; exact absurd rfl hret
                · obtain ⟨tok2, h2, h3⟩ := getopt_scan_result_optopt h
                  rw [htok] at h2
                  cases h2
                  exact ⟨tok, rfl, h3⟩
  · exact getopt_scan_result_optopt h

/-- On a token of the shape `--something`, `getopt_long` never writes `optopt`. -/
theorem getopt_long_scan_optopt {prog : List Int} {rest : List (List Int)}
    {lo : Option (List option)} {li : Bool} {s s1 : State} {tok : List Int} {ret : Int}
    (h : getopt_long_scan (prog :: rest) lo li tok s = some (ret, s1)) :
    s1.optopt = s.optopt := by
  unfold getopt_long_scan at h
  simp only [Option.bind_eq_bind] at h
  cases hl : long_lookup lo (List.drop 2 tok) (name_len (List.drop 2 tok)) with
  | none => simp [hl] at h
  | some found =>
    simp only [hl, Option.some_bind] at h
    cases found with
    | none =>
      simp only [diagnose_cons, Option.some_bind, Option.some.injEq, Prod.mk.injEq] at h
      rw [← h.2]
      simp
    | some p =>
      obtain ⟨i, o⟩ := p
      simp only at h
      obtain ⟨ret2, s2, h2, _, h3, _⟩ := long_found_fields prog rest (List.drop 2 tok)
        (strchr (List.drop 2 tok) (ch '=')) li i o s
      rw [h2] at h
      cases h
      exact h3

/-! ## How a call moves the cursor -/

theorem lt_length_of_charAt {tok : List Int} {j : Nat} {d : Int} (h : charAt tok j = some d)
    (hd : d ≠ 0) : j < tok.length := by
  induction tok generalizing j with
  | nil =>
    cases j with
    | zero => simp [charAt] at h; exact absurd h.symm hd
    | succ j => simp [charAt] at h
  | cons x t ih =>
    cases j with
    | zero => simp
    | succ j =>
      simp only [charAt] at h
      have := ih h
      simp; omega

/-- What `advance` does to the cursor. -/
theorem advance_result {tok : List Int} {s s1 : State} (h : advance tok s = some s1) :
    s1.flags = s.flags ∧ s1.longindex = s.longindex ∧ s1.optarg = s.optarg ∧
    ((s1.optind = s.optind ∧ s1.sp = s.sp + 1 ∧ s.sp + 1 < tok.length) ∨
      (s1.sp = 1 ∧ s1.optind = s.optind + 1)) := by
  unfold advance at h
  cases hd : charAt tok (s.sp + 1) with
  | none => simp [hd] at h
  | some d =>
    simp only [hd, Option.bind_eq_bind, Option.some_bind] at h
    split at h
    · cases h; exact ⟨rfl, rfl, rfl, Or.inr ⟨rfl, rfl⟩⟩
    · next hne =>
      cases h
      exact ⟨rfl, rfl, rfl, Or.inl ⟨rfl, rfl, lt_length_of_charAt hd hne⟩⟩

theorem diagnose_result {argv : List (List Int)} {s s1 : State} {text : List Int → List Int}
    (h : diagnose argv s text = some s1) :
    s1.flags = s.flags ∧ s1.longindex = s.longindex ∧ s1.optarg = s.optarg ∧
    s1.optind = s.optind ∧ s1.sp = s.sp := by
  unfold diagnose at h
  split at h
  · cases hp : argv[0]? with
    | none => simp [hp] at h
    | some prog =>
      simp only [hp, Option.map_some', Option.some.injEq] at h
      subst h
      exact ⟨rfl, rfl, rfl, rfl, rfl⟩
  · cases h; exact ⟨rfl, rfl, rfl, rfl, rfl⟩

/-- Whatever `getopt_scan` returns, the cursor has moved on: to the next
character of the token, or to the start of a later token within the vector;
no flag cell and no `longindex` cell is written. -/
theorem getopt_scan_result {argv : List (List Int)} {optstring : List Int} {s s1 : State}
    {ret : Int} (h : getopt_scan argv optstring s = some (ret, s1)) :
    ∃ tok, argv[s.optind]? = some tok ∧ s1.flags = s.flags ∧ s1.longindex = s.longindex ∧
      stepped argv s s1 tok := by
  unfold stepped
  unfold getopt_scan at h
  cases htok : argv[s.optind]? with
  | none => simp [htok] at h
  | some tok =>
    have hlt : s.optind < argv.length := lt_length_of_getElem? htok
    cases hc : charAt tok s.sp with
    | none => simp [htok, hc] at h
    | some c =>
      refine ⟨tok, rfl, ?_⟩
      simp only [htok, hc, Option.bind_eq_bind, Option.some_bind] at h
      split at h
      · cases hd : diagnose argv { s with optopt := c } (fun prog => msg_illegal prog c) with
        | none => simp [hd] at h
        | some s2 =>
          cases ha : advance tok s2 with
          | none => simp [hd, ha] at h
          | some s3 =>
            simp only [hd, ha, Option.some_bind, Option.some.injEq, Prod.mk.injEq] at h
            obtain ⟨d1, d2, _, d4, d5⟩ := diagnose_result hd
            obtain ⟨a1, a2, _, a4⟩ := advance_result ha
            rw [← h.2]
            simp only at d1 d2 d4 d5
            refine ⟨a1.trans d1, a2.trans d2, ?_⟩
            rcases a4 with ⟨b1, b2, b3⟩ | ⟨b1, b2⟩
            · exact Or.inl ⟨b1.trans d4, by omega, by omega⟩
            · exact Or.inr ⟨b1, by omega, by omega, by omega⟩
      · cases hcp : strchr optstring c with
        | none => simp [hcp] at h
        | some i =>
          cases hn : charAt optstring (i + 1) with
          | none => simp [hcp, hn] at h
          | some nxt =>
            simp only [hcp, hn, Option.some_bind] at h
            split at h
            · cases hd : charAt tok (s.sp + 1) with
              | none => simp [hd] at h
              | some d =>
                simp only [hd, Option.some_bind] at h
                split at h
                · cases h
                  exact ⟨rfl, rfl, Or.inr ⟨rfl, by simp, by simp; omega, by simp⟩⟩
                · split at h
                  · cases hg : diagnose argv { s with optopt := c, optind := s.optind + 1 }
                        (fun prog => msg_requires_short prog c) with
                    | none => simp [hg] at h
                    | some s2 =>
                      simp only [hg, Option.some_bind, Option.some.injEq, Prod.mk.injEq] at h
                      obtain ⟨d1, d2, _, d4, _⟩ := diagnose_result hg
                      rw [← h.2]
                      simp only at d1 d2 d4
                      exact ⟨d1, d2, Or.inr ⟨rfl, by simp; omega, by simp; omega, by simp; omega⟩⟩
                  · next hge =>
                    cases hv : argv[s.optind + 1]? with
                    | none => simp [hv] at h
                    | some val =>
                      simp only [hv, Option.some_bind, Option.some.injEq, Prod.mk.injEq] at h
                      rw [← h.2]
                      have hge2 : ¬ (s.optind + 1 ≥ argv.length) := hge
                      exact ⟨rfl, rfl, Or.inr ⟨rfl, by simp, by simp; omega, by simp⟩⟩
            · cases ha : advance tok { s with optopt := c } with
              | none => simp [ha] at h
              | some s3 =>
                simp only [ha, Option.some_bind, Option.some.injEq, Prod.mk.injEq] at h
                obtain ⟨a1, a2, _, a4⟩ := advance_result ha
                rw [← h.2]
                refine ⟨a1, a2, ?_⟩
                rcases a4 with ⟨b1, b2, b3⟩ | ⟨b1, b2⟩
                · exact Or.inl ⟨b1, b2, b3⟩
                · exact Or.inr ⟨b1, by simp at b2 ⊢; omega, by simp at b2 ⊢; omega,
                    by simp at b2 ⊢; omega⟩


theorem longShaped_of_chars {tok : List Int} {c2 : Int} (h0 : charAt tok 0 = some (ch '-'))
    (h1 : charAt tok 1 = some (ch '-')) (h2 : charAt tok 2 = some c2) (hc2 : c2 ≠ 0) :
    longShaped tok = true := by
  match tok, h0, h1, h2 with
  | a :: b :: x :: t, h0, h1, h2 =>
    simp only [charAt, Option.some.injEq] at h0 h1 h2
    subst h0 h1 h2
    simp [longShaped, hc2]
  | [a, b], _, _, h2 =>
    simp only [charAt, Option.some.injEq] at h2
    exact absurd h2.symm hc2
  | [a], _, h1, _ =>
    simp only [charAt, Option.some.injEq] at h1
    exact absurd h1.symm (by decide)
  | [], h0, _, _ =>
    simp only [charAt, Option.some.injEq] at h0
    exact absurd h0.symm (by decide)

theorem chars_of_longShaped {tok : List Int} (h : longShaped tok = true) :
    ∃ x t, tok = ch '-' :: ch '-' :: x :: t ∧ x ≠ 0 := by
  match tok, h with
  | a :: b :: x :: t, h =>
    simp [longShaped] at h
    obtain ⟨⟨ha, hb⟩, hx⟩ := h
    exact ⟨x, t, by rw [ha, hb], hx⟩
  | [a, b], h => simp [longShaped] at h
  | [a], h => simp [longShaped] at h
  | [], h => simp [longShaped] at h

theorem head_of_charAt {tok : List Int} (h0 : charAt tok 0 = some (ch '-')) :
    tok.head? = some (ch '-') := by
  cases tok with
  | nil => simp only [charAt, Option.some.injEq] at h0; exact absurd h0.symm (by decide)
  | cons x t => simpa [charAt] using h0

theorem charAt_of_head {tok : List Int} (h0 : tok.head? = some (ch '-')) :
    charAt tok 0 = some (ch '-') := by
  cases tok with
  | nil => simp at h0
  | cons x t => simpa [charAt] using h0

/-- Whatever `getopt` returns: the end of the options at the start of a token, with the cursor
unchanged or moved past the terminator, or the cursor has moved on. -/
theorem getopt_result {argv : List (List Int)} {optstring : List Int} {s s1 : State}
    {ret : Int} (h : getopt argv optstring s = some (ret, s1)) :
    s1.flags = s.flags ∧ s1.longindex = s.longindex ∧
    ((ret = -1 ∧ s.sp = 1 ∧
        (s1 = s ∨
          (s1 = { s with optind := s.optind + 1 } ∧ argv[s.optind]? = some (cstr "--")))) ∨
      ∃ tok, argv[s.optind]? = some tok ∧ (s.sp = 1 → tok.head? = some (ch '-')) ∧
        stepped argv s s1 tok) := by
  unfold getopt at h
  split at h
  · next hsp =>
    split at h
    · cases h; exact ⟨rfl, rfl, Or.inl ⟨rfl, hsp, Or.inl rfl⟩⟩
    · next hge =>
      cases htok : argv[s.optind]? with
      | none => simp [htok] at h
      | some tok =>
        simp only [htok, Option.bind_eq_bind, Option.some_bind] at h
        cases h0 : charAt tok 0 with
        | none => simp [h0] at h
        | some c0 =>
          simp only [h0, Option.some_bind] at h
          split at h
          · cases h; exact ⟨rfl, rfl, Or.inl ⟨rfl, hsp, Or.inl rfl⟩⟩
          · next hc0 =>
            cases h1 : charAt tok 1 with
            | none => simp [h1] at h
            | some c1 =>
              simp only [h1, Option.some_bind] at h
              split at h
              · cases h; exact ⟨rfl, rfl, Or.inl ⟨rfl, hsp, Or.inl rfl⟩⟩
              · split at h
                · next hcmp =>
                  cases h
                  rw [(strcmp_eq_zero_iff _ _).mp hcmp]
                  exact ⟨rfl, rfl, Or.inl ⟨rfl, hsp, Or.inr ⟨rfl, rfl⟩⟩⟩
                · obtain ⟨tok2, h2, h3, h4, h5⟩ := getopt_scan_result h
                  rw [htok] at h2
                  cases h2
                  have hc0' : c0 = ch '-' := by simpa using hc0
                  subst hc0'
                  exact ⟨h3, h4, Or.inr ⟨tok, rfl, fun _ => head_of_charAt h0, h5⟩⟩
  · next hsp =>
    obtain ⟨tok, h2, h3, h4, h5⟩ := getopt_scan_result h
    exact ⟨h3, h4, Or.inr ⟨tok, h2, fun e => absurd e hsp, h5⟩⟩


theorem charAt_of_le {tok : List Int} {j : Nat} (h : j ≤ tok.length) :
    ∃ d, charAt tok j = some d := by
  rcases Nat.lt_or_ge j tok.length with h1 | h1
  · exact ⟨_, charAt_of_lt h1⟩
  · have : j = tok.length := by omega
    exact ⟨0, this ▸ charAt_length tok⟩

/-- The test of lines 124-125 never reads `name[len]` out of bounds. -/
theorem name_matches_total {arg name : List Int} {len : Nat} (hlen : len ≤ arg.length) :
    ∃ b, name_matches arg name len = some b := by
  unfold name_matches
  by_cases h : strncmp arg name len = 0
  · rw [if_pos h]
    have ht : arg.take len = name.take len := (strncmp_eq_zero_iff _ _ _).mp h
    have hl : len ≤ name.length := by
      have := congrArg List.length ht
      simp [List.length_take, Nat.min_eq_left hlen] at this
      omega
    obtain ⟨d, hd⟩ := charAt_of_le hl
    exact ⟨_, by rw [hd]; rfl⟩
  · rw [if_neg h]; exact ⟨false, rfl⟩

theorem find_match_total {arg : List Int} {len : Nat} (hlen : len ≤ arg.length)
    (os : List option) (i0 : Nat) : ∃ res, find_match arg len os i0 = some res := by
  induction os generalizing i0 with
  | nil => exact ⟨none, rfl⟩
  | cons e rest ih =>
    obtain ⟨b, hb⟩ : ∃ b, name_matches arg e.name len = some b := name_matches_total hlen
    simp only [find_match, hb, Option.bind_eq_bind, Option.some_bind]
    cases b with
    | true => exact ⟨_, rfl⟩
    | false => simpa using ih (i0 + 1)

theorem long_lookup_total (lo : Option (List option)) (arg : List Int) :
    ∃ res, long_lookup lo arg (name_len arg) = some res := by
  unfold long_lookup
  cases lo with
  | none => exact ⟨none, rfl⟩
  | some os => exact find_match_total (name_len_le arg) os 0

theorem long_return_eq (o : option) (s : State) :
    long_return o s =
      (long_result o,
        { s with optind := s.optind + 1, flags := flags_after o s.flags }) := by
  unfold long_return flags_after long_result
  cases o.flag <;> rfl

/-- What `long_found` returns, case by case. -/
theorem long_found_result (prog : List Int) (rest : List (List Int)) (arg : List Int)
    (eq : Option Nat) (li : Bool) (i : Nat) (o : option) (s : State)
    (hlt : s.optind < (prog :: rest).length) :
    ∃ ret s1, long_found (prog :: rest) arg eq li i o s = some (ret, s1) ∧
      s1.sp = s.sp ∧ s.optind < s1.optind ∧ s1.optind ≤ (prog :: rest).length ∧
      s1.optind ≤ s.optind + 2 ∧
      ((o.has_arg = required_argument ∧ eq = none ∧ (prog :: rest).length ≤ s.optind + 1 ∧
          ret = ch '?' ∧ s1.flags = s.flags) ∨
        (¬ (o.has_arg = required_argument ∧ eq = none ∧ (prog :: rest).length ≤ s.optind + 1) ∧
          ret = long_result o ∧
          s1.flags = flags_after o s.flags)) := by
  have hl : (prog :: rest).length = rest.length + 1 := List.length_cons _ _
  rw [hl] at hlt ⊢
  by_cases hreq : o.has_arg = required_argument
  · cases eq with
    | some k =>
      rw [long_found_required_inline _ _ _ _ _ _ hreq, long_return_eq]
      exact ⟨_, _, rfl, by simp, by simp, by simp; omega, by simp,
        Or.inr ⟨by simp, rfl, by simp⟩⟩
    | none =>
      rcases Nat.lt_or_ge (s.optind + 1) (rest.length + 1) with h | h
      · rw [long_found_required_next _ _ _ _ _ hreq
          (List.getElem?_eq_getElem (show s.optind + 1 < (prog :: rest).length from hl ▸ h)),
          long_return_eq]
        exact ⟨_, _, rfl, by simp, by simp; omega, by simp; omega, by simp,
          Or.inr ⟨by simp; omega, rfl, by simp⟩⟩
      · rw [long_found_required_missing _ _ _ _ _ _ hreq (hl ▸ h)]
        exact ⟨_, _, rfl, by simp, by simp, by simp; omega, by simp,
          Or.inl ⟨hreq, rfl, h, rfl, by simp⟩⟩
  · by_cases hopt : o.has_arg = optional_argument
    · rw [long_found_optional _ _ _ _ _ _ hopt, long_return_eq]
      exact ⟨_, _, rfl, by simp, by simp, by simp; omega, by simp,
        Or.inr ⟨by simp [hreq], rfl, by simp⟩⟩
    · rw [long_found_none _ _ _ _ _ _ hreq hopt, long_return_eq]
      exact ⟨_, _, rfl, by simp, by simp, by simp; omega, by simp,
        Or.inr ⟨by simp [hreq], rfl, by simp⟩⟩


/-- On a token of the shape `--something` the long-option path always returns, with `sp`
untouched and `optind` advanced by one or two within the vector. -/
theorem getopt_long_scan_result (prog : List Int) (rest : List (List Int))
    (lo : Option (List option)) (li : Bool) (tok : List Int) (s : State)
    (hlt : s.optind < (prog :: rest).length) :
    ∃ ret s1, getopt_long_scan (prog :: rest) lo li tok s = some (ret, s1) ∧
      s1.sp = s.sp ∧ s.optind < s1.optind ∧ s1.optind ≤ (prog :: rest).length ∧
      s1.optind ≤ s.optind + 2 := by
  obtain ⟨res, hres⟩ := long_lookup_total lo (List.drop 2 tok)
  unfold getopt_long_scan
  simp only [hres, Option.bind_eq_bind, Option.some_bind]
  cases res with
  | none =>
    simp only [diagnose_cons, Option.some_bind]
    exact ⟨_, _, rfl, by simp, by simp, by simp at hlt ⊢; omega, by simp⟩
  | some p =>
    obtain ⟨i, o⟩ := p
    obtain ⟨ret, s1, h1, h2, h3, h4, h5, _⟩ := long_found_result prog rest (List.drop 2 tok)
      (strchr (List.drop 2 tok) (ch '=')) li i o s hlt
    exact ⟨ret, s1, h1, h2, h3, h4, h5⟩

/-- Whatever `getopt_long` returns: the end of the options with the cursor unchanged or moved
past the terminator; a long option, with `optind` advanced; or what `getopt` does on a token that
begins with `-` and is not of the shape `--something`. -/
theorem getopt_long_result {argv : List (List Int)} {optstring : List Int}
    {lo : Option (List option)} {li : Bool} {s s1 : State}
    {ret : Int} (h : getopt_long argv optstring lo li s = some (ret, s1)) :
    (ret = -1 ∧
      (s1 = s ∨ (s1 = { s with optind := s.optind + 1 } ∧ argv[s.optind]? = some (cstr "--")))) ∨
    (∃ tok, argv[s.optind]? = some tok ∧ longShaped tok = true ∧ s1.sp = s.sp ∧
      s.optind < s1.optind ∧ s1.optind ≤ argv.length ∧ s1.optind ≤ s.optind + 2) ∨
    (∃ tok, argv[s.optind]? = some tok ∧ tok.head? = some (ch '-') ∧ longShaped tok = false ∧
      getopt argv optstring s = some (ret, s1) ∧
      s1.flags = s.flags ∧ s1.longindex = s.longindex ∧ stepped argv s s1 tok) := by
  have hcopy := h
  unfold getopt_long at h
  simp only [getopt_long_sp, if_true] at h
  split at h
  · cases h; exact Or.inl ⟨rfl, Or.inl rfl⟩
  · next hge =>
    have hlt : s.optind < argv.length := Nat.not_le.mp hge
    obtain ⟨tok, htok⟩ : ∃ tok, argv[s.optind]? = some tok := ⟨_, List.getElem?_eq_getElem hlt⟩
    · simp only [htok, Option.bind_eq_bind, Option.some_bind] at h
      cases h0 : charAt tok 0 with
      | none => simp [h0] at h
      | some c0 =>
        simp only [h0, Option.some_bind] at h
        split at h
        · cases h; exact Or.inl ⟨rfl, Or.inl rfl⟩
        · next hc0 =>
          have hc0' : c0 = ch '-' := by simpa using hc0
          subst hc0'
          split at h
          · next hcmp =>
            cases h
            exact Or.inl ⟨rfl, Or.inr ⟨rfl, by rw [htok, (strcmp_eq_zero_iff _ _).mp hcmp]⟩⟩
          · have hdeleg : longShaped tok = false →
                getopt argv optstring s = some (ret, s1) →
                (ret = -1 ∧ (s1 = s ∨
                  (s1 = { s with optind := s.optind + 1 } ∧
                    argv[s.optind]? = some (cstr "--")))) ∨
                (∃ tok, argv[s.optind]? = some tok ∧ longShaped tok = true ∧ s1.sp = s.sp ∧
                  s.optind < s1.optind ∧ s1.optind ≤ argv.length ∧ s1.optind ≤ s.optind + 2) ∨
                (∃ tok, argv[s.optind]? = some tok ∧ tok.head? = some (ch '-') ∧
                  longShaped tok = false ∧ getopt argv optstring s = some (ret, s1) ∧
                  s1.flags = s.flags ∧ s1.longindex = s.longindex ∧ stepped argv s s1 tok) := by
              intro hshape hg
              obtain ⟨g1, g2, g3⟩ := getopt_result hg
              rcases g3 with ⟨r1, _, r3⟩ | ⟨tok2, t1, _, t3⟩
              · exact Or.inl ⟨r1, r3⟩
              · rw [htok] at t1
                cases t1
                exact Or.inr (Or.inr ⟨tok, htok, head_of_charAt h0, hshape, hg, g1, g2, t3⟩)
            cases h1 : charAt tok 1 with
            | none => simp [h1] at h
            | some c1 =>
              simp only [h1, Option.some_bind] at h
              split at h
              · next hc1 =>
                subst hc1
                cases h2 : charAt tok 2 with
                | none => simp [h2] at h
                | some c2 =>
                  simp only [h2, Option.some_bind] at h
                  split at h
                  · next hc2 =>
                    cases argv with
                    | nil => simp at hlt
                    | cons prog rest =>
                      obtain ⟨ret2, s2, k1, k2, k3, k4, k5⟩ :=
                        getopt_long_scan_result prog rest lo li tok s hlt
                      rw [k1] at h
                      cases h
                      exact Or.inr (Or.inl ⟨tok, htok, longShaped_of_chars h0 h1 h2 hc2,
                        k2, k3, k4, k5⟩)
                  · next hc2 =>
                    have hc2' : c2 = 0 := by simpa using hc2
                    subst hc2'
                    refine hdeleg ?_ h
                    cases hs : longShaped tok with
                    | false => rfl
                    | true =>
                      obtain ⟨x, t, hxt, hx⟩ := chars_of_longShaped hs
                      subst hxt
                      simp only [charAt, Option.some.injEq] at h2
                      exact absurd h2 hx
              · next hc1 =>
                refine hdeleg ?_ h
                cases hs : longShaped tok with
                | false => rfl
                | true =>
                  obtain ⟨x, t, hxt, hx⟩ := chars_of_longShaped hs
                  subst hxt
                  simp only [charAt, Option.some.injEq] at h1
                  exact absurd h1.symm hc1


/-- Lines 36-40: at the start of a token, `getopt` returns -1 and changes nothing when the
vector is exhausted or the token does not begin with `-` or is `-` alone. -/
theorem getopt_end_frame (argv : List (List Int)) (optstring : List Int) (s : State)
    (hsp : s.sp = 1)
    (h : argv.length ≤ s.optind ∨
      ∃ tok, argv[s.optind]? = some tok ∧ (tok.head? ≠ some (ch '-') ∨ tok = [ch '-'])) :
    getopt argv optstring s = some (-1, s) := by
  rcases h with h | ⟨tok, htok, h⟩
  · exact getopt_at_end _ _ _ hsp h
  · have hlt : s.optind < argv.length := lt_length_of_getElem? htok
    unfold getopt
    simp only [hsp, if_true, ge_iff_le, Nat.not_le.mpr hlt, if_false, htok, Option.bind_eq_bind,
      Option.some_bind]
    rcases h with h | h
    · cases tok with
      | nil => simp [charAt, show (0 : Int) ≠ ch '-' from by decide]
      | cons x t =>
        have hx : x ≠ ch '-' := by simpa using h
        simp [charAt, hx]
    · subst h
      simp [charAt]

/-- Lines 106-109 and 167-168: the same for `getopt_long`. -/
theorem getopt_long_end_frame (argv : List (List Int)) (optstring : List Int)
    (lo : Option (List option)) (li : Bool) (s : State) (hsp : s.sp = 1)
    (h : argv.length ≤ s.optind ∨
      ∃ tok, argv[s.optind]? = some tok ∧ (tok.head? ≠ some (ch '-') ∨ tok = [ch '-'])) :
    getopt_long argv optstring lo li s = some (-1, s) := by
  rcases h with h | ⟨tok, htok, h⟩
  · exact getopt_long_at_end _ _ _ _ _ h
  · have hlt : s.optind < argv.length := lt_length_of_getElem? htok
    rcases h with h | h
    · unfold getopt_long
      simp only [getopt_long_sp, if_true, ge_iff_le, Nat.not_le.mpr hlt, if_false, htok,
        Option.bind_eq_bind, Option.some_bind]
      cases tok with
      | nil => simp [charAt, show (0 : Int) ≠ ch '-' from by decide]
      | cons x t =>
        have hx : x ≠ ch '-' := by simpa using h
        simp [charAt, hx]
    · subst h
      have hg := getopt_end_frame argv optstring s hsp (Or.inr ⟨_, htok, Or.inr rfl⟩)
      unfold getopt_long
      simp only [getopt_long_sp, if_true, ge_iff_le, Nat.not_le.mpr hlt, if_false, htok,
        Option.bind_eq_bind, Option.some_bind, charAt, ne_eq, not_true_eq_false,
        show strcmp [ch '-'] (cstr "--") ≠ 0 from by decide,
        show (0 : Int) ≠ ch '-' from by decide, hg]


/-- On a token `--r` whose first matching entry is `e` at position `i`, the call is
`long_found` on that entry. -/
theorem getopt_long_found {prog : List Int} {rest : List (List Int)} (optstring : List Int)
    {os : List option} (li : Bool) {s : State} {r : List Int} {i : Nat} {e : option}
    (htok : (prog :: rest)[s.optind]? = some (ch '-' :: ch '-' :: r))
    (hr : r ≠ []) (hnul : (0 : Int) ∉ r) (hnames : ∀ o ∈ os, (0 : Int) ∉ o.name)
    (hi : os[i]? = some e) (hname : e.name = name_part r)
    (hfirst : ∀ j o1, j < i → os[j]? = some o1 → o1.name ≠ name_part r) :
    getopt_long (prog :: rest) optstring (some os) li s =
      long_found (prog :: rest) r (strchr r (ch '=')) li i e s := by
  obtain ⟨x, t, hxt, hx⟩ := cons_of_ne_nil hr hnul
  have hfound : long_lookup (some os) r (name_len r) = some (some (i, e)) := by
    unfold long_lookup
    rw [find_match_iff (name_len_le _) os hnames 0 i e, take_name_len]
    exact ⟨i, by omega, hi, hname, hfirst⟩
  rw [hxt] at htok
  rw [getopt_long_of_long optstring (some os) li htok hx, ← hxt]
  exact getopt_long_scan_found li s hfound


/-- Lines 106-118 and 167-168: on a token that is not of the shape `--something`, `getopt_long`
is `getopt`, provided that in the middle of a cluster the token begins with `-` and is not the
terminator. -/
theorem getopt_long_eq_getopt {argv : List (List Int)} (optstring : List Int)
    (lo : Option (List option)) (li : Bool) {s : State} {tok : List Int}
    (htok : argv[s.optind]? = some tok) (hshape : longShaped tok = false)
    (hmid : s.sp ≠ 1 → tok.head? = some (ch '-') ∧ tok ≠ cstr "--") :
    getopt_long argv optstring lo li s = getopt argv optstring s := by
  have hlt : s.optind < argv.length := lt_length_of_getElem? htok
  unfold getopt_long
  simp only [getopt_long_sp, if_true, ge_iff_le, Nat.not_le.mpr hlt, if_false, htok,
    Option.bind_eq_bind, Option.some_bind]
  by_cases hsp : s.sp = 1
  · -- at the start of a token both guards agree
    cases tok with
    | nil =>
      simp [getopt, hsp, Nat.not_le.mpr hlt, htok, charAt, show (0 : Int) ≠ ch '-' from by decide]
    | cons a t =>
      by_cases ha : a = ch '-'
      · subst ha
        by_cases hcmp : strcmp (ch '-' :: t) (cstr "--") = 0
        · have ht : t = [ch '-'] := by
            have := (strcmp_eq_zero_iff _ _).mp hcmp
            exact List.tail_eq_of_cons_eq this
          subst ht
          simp [getopt, hsp, Nat.not_le.mpr hlt, htok, charAt, hcmp,
            show ch '-' ≠ 0 from by decide]
        · cases t with
          | nil =>
            simp [getopt, hsp, Nat.not_le.mpr hlt, htok, charAt, hcmp,
              show (0 : Int) ≠ ch '-' from by decide]
          | cons b u =>
            by_cases hb : b = ch '-'
            · subst hb
              cases u with
              | nil => exact absurd (by decide) hcmp
              | cons x v =>
                have hx : x = 0 := by
                  by_contra hx
                  simp [longShaped, hx] at hshape
                subst hx
                simp [charAt, hcmp]
            · simp [charAt, hcmp, hb]
      · simp [getopt, hsp, Nat.not_le.mpr hlt, htok, charAt, ha]
  · obtain ⟨hd, hne⟩ := hmid hsp
    have hcmp : strcmp tok (cstr "--") ≠ 0 := fun e => hne ((strcmp_eq_zero_iff _ _).mp e)
    cases tok with
    | nil => simp at hd
    | cons a t =>
      have ha : a = ch '-' := by simpa using hd
      subst ha
      cases t with
      | nil =>
        simp [charAt, hcmp, show (0 : Int) ≠ ch '-' from by decide]
      | cons b u =>
        by_cases hb : b = ch '-'
        · subst hb
          cases u with
          | nil => exact absurd (by decide) hcmp
          | cons x v =>
            have hx : x = 0 := by
              by_contra hx
              simp [longShaped, hx] at hshape
            subst hx
            simp [charAt, hcmp]
        · simp [charAt, hcmp, hb]


/-! ## Sessions of one scanner -/

theorem cursorOk_of_long {argv : List (List Int)} {s : State} (h : cursorOkLong argv s) :
    cursorOk argv s := by
  rcases h with h | ⟨tok, h1, h2, _, h4, h5⟩
  · exact Or.inl h
  · exact Or.inr ⟨tok, h1, h2, h4, h5⟩

/-- With C-string tokens and the cursor on a character, `getopt` reads nothing out of bounds. -/
theorem getopt_total {argv : List (List Int)} (optstring : List Int) {s : State}
    (hwf : wellFormed argv) (hok : cursorOk argv s) :
    ∃ r s1, getopt argv optstring s = some (r, s1) := by
  have hscan : ∀ tok c, argv[s.optind]? = some tok → tok[s.sp]? = some c →
      (s.sp = 1 → tok.head? = some (ch '-') ∧ tok ≠ cstr "--") →
      ∃ r s1, getopt argv optstring s = some (r, s1) := by
    intro tok c htok hc hfresh
    have hnul : (0 : Int) ∉ tok := hwf tok (List.getElem?_mem htok)
    rw [getopt_of_scan htok (charAt_of_getElem? hc) (getElem?_ne_zero hnul hc) hfresh]
    cases argv with
    | nil => simp at htok
    | cons prog rest =>
      obtain ⟨r, s1, h1, _⟩ := getopt_scan_optopt optstring htok hnul hc
      exact ⟨r, s1, h1⟩
  by_cases hsp : s.sp = 1
  · by_cases hopt : ∃ t, argv[s.optind]? = some t ∧ optionToken t
    · obtain ⟨tok, htok, hd, hlen, hne⟩ := hopt
      have h1 : s.sp < tok.length := by omega
      exact hscan tok _ htok (List.getElem?_eq_getElem h1) (fun _ => ⟨hd, hne⟩)
    · obtain ⟨s1, h1⟩ := getopt_not_option optstring hsp
        (fun t ht hO => hopt ⟨t, ht, hO⟩)
      exact ⟨-1, s1, h1⟩
  · rcases hok with h | ⟨tok, htok, _, _, h5⟩
    · exact absurd h hsp
    · exact hscan tok _ htok (List.getElem?_eq_getElem h5) (fun e => absurd e hsp)

/-- With C-string tokens, in a session of `getopt_long` alone, `getopt_long` reads nothing out of
bounds. -/
theorem getopt_long_total {argv : List (List Int)} (optstring : List Int)
    (lo : Option (List option)) (li : Bool) {s : State}
    (hwf : wellFormed argv) (hok : cursorOkLong argv s) :
    ∃ r s1, getopt_long argv optstring lo li s = some (r, s1) := by
  rcases Nat.lt_or_ge s.optind argv.length with hlt | hge
  · obtain ⟨tok, htok⟩ : ∃ tok, argv[s.optind]? = some tok := ⟨_, List.getElem?_eq_getElem hlt⟩
    cases hs : longShaped tok with
    | false =>
      rw [getopt_long_eq_getopt optstring lo li htok hs]
      · exact getopt_total optstring hwf (cursorOk_of_long hok)
      · intro hsp
        rcases hok with h | ⟨tok2, h1, h2, _, h4, h5⟩
        · exact absurd h hsp
        · rw [htok] at h1
          cases h1
          refine ⟨h2, ?_⟩
          intro e
          rw [e] at h5
          simp [cstr] at h5
          omega
    | true =>
      obtain ⟨x, t, hxt, hx⟩ := chars_of_longShaped hs
      subst hxt
      cases argv with
      | nil => simp at hlt
      | cons prog rest =>
        rw [getopt_long_of_long optstring lo li htok hx]
        obtain ⟨r, s1, h1, _⟩ := getopt_long_scan_result prog rest lo li _ s hlt
        exact ⟨r, s1, h1⟩
  · exact ⟨-1, s, getopt_long_at_end _ _ _ _ _ hge⟩

/-- In a session of `getopt` alone the cursor stays on a character of a token that begins
with `-`, or at the start of a token. -/
theorem getopt_preserves {argv : List (List Int)} {optstring : List Int} {s s1 : State}
    {r : Int} (hok : cursorOk argv s) (h : getopt argv optstring s = some (r, s1)) :
    cursorOk argv s1 := by
  obtain ⟨_, _, h3⟩ := getopt_result h
  rcases h3 with ⟨_, hsp, h4 | ⟨h4, _⟩⟩ | ⟨tok, htok, hhead, hst⟩
  · rw [h4]; exact hok
  · rw [h4]; exact Or.inl hsp
  · rcases hst with ⟨a1, a2, a3⟩ | ⟨a1, _⟩
    · refine Or.inr ⟨tok, by rw [a1]; exact htok, ?_, by omega, by omega⟩
      by_cases hsp : s.sp = 1
      · exact hhead hsp
      · rcases hok with h | ⟨tok2, h1, h2, _⟩
        · exact absurd h hsp
        · rw [htok] at h1; cases h1; exact h2
    · exact Or.inl a1

/-- The same in a session of `getopt_long` alone, where the token of a cluster is never of the
shape `--something`. -/
theorem getopt_long_preserves {argv : List (List Int)} {optstring : List Int}
    {lo : Option (List option)} {li : Bool} {s s1 : State}
    {r : Int} (hok : cursorOkLong argv s)
    (h : getopt_long argv optstring lo li s = some (r, s1)) :
    cursorOkLong argv s1 := by
  rcases getopt_long_result h with ⟨_, h4 | ⟨h4, h5⟩⟩ | ⟨tok, htok, hs, h3, _⟩ |
    ⟨tok, htok, hhead, hs, _, _, _, hst⟩
  · rw [h4]; exact hok
  · rcases hok with hsp | ⟨tok2, h1, _, _, k4, k5⟩
    · rw [h4]; exact Or.inl hsp
    · rw [h5] at h1
      cases h1
      simp [cstr] at k5
      by_cases hsp : s.sp = 1
      · rw [h4]; exact Or.inl hsp
      · omega
  · rcases hok with hsp | ⟨tok2, h1, _, k3, _⟩
    · exact Or.inl (h3.trans hsp)
    · rw [htok] at h1
      cases h1
      rw [hs] at k3
      cases k3
  · rcases hst with ⟨a1, a2, a3⟩ | ⟨a1, _⟩
    · exact Or.inr ⟨tok, by rw [a1]; exact htok, hhead, hs, by omega, by omega⟩
    · exact Or.inl a1


theorem chars_drop_getElem {argv : List (List Int)} {n : Nat} {tok : List Int}
    (h : argv[n]? = some tok) :
    chars (argv.drop n) = tok.length + chars (argv.drop (n + 1)) := by
  induction argv generalizing n with
  | nil => simp at h
  | cons a t ih =>
    cases n with
    | zero =>
      simp only [List.getElem?_cons_zero, Option.some.injEq] at h
      subst h
      simp [chars]
    | succ n =>
      simp only [List.getElem?_cons_succ] at h
      simpa using ih h

theorem chars_drop_succ_le (argv : List (List Int)) (n : Nat) :
    chars (argv.drop (n + 1)) ≤ chars (argv.drop n) := by
  rcases Nat.lt_or_ge n argv.length with h | h
  · rw [chars_drop_getElem (List.getElem?_eq_getElem h)]
    omega
  · rw [List.drop_eq_nil_of_le (by omega), List.drop_eq_nil_of_le h]

theorem chars_drop_mono (argv : List (List Int)) {m n : Nat} (h : m ≤ n) :
    chars (argv.drop n) ≤ chars (argv.drop m) := by
  induction n with
  | zero =>
    have : m = 0 := by omega
    subst this
    exact Nat.le_refl _
  | succ n ih =>
    rcases Nat.lt_or_ge m (n + 1) with h1 | h1
    · exact Nat.le_trans (chars_drop_succ_le argv n) (ih (by omega))
    · have : m = n + 1 := by omega
      subst this
      exact Nat.le_refl _

theorem remaining_eq (argv : List (List Int)) (s : State) :
    remaining argv s = chars (argv.drop s.optind) + 1 - s.sp := rfl

/-- A step within the cluster or to a later token leaves fewer characters. -/
theorem remaining_lt_of_stepped {argv : List (List Int)} {s s1 : State} {tok : List Int}
    (htok : argv[s.optind]? = some tok) (hst : stepped argv s s1 tok)
    (h2 : s.sp ≤ tok.length) :
    remaining argv s1 < remaining argv s := by
  rw [remaining_eq, remaining_eq, chars_drop_getElem htok]
  rcases hst with ⟨a1, a2, a3⟩ | ⟨a1, a2, _, _⟩
  · rw [a1, a2, chars_drop_getElem htok]
    omega
  · have := chars_drop_mono argv (show s.optind + 1 ≤ s1.optind from a2)
    rw [a1]
    omega

/-- A long option leaves fewer characters. -/
theorem remaining_lt_of_long {argv : List (List Int)} {s s1 : State} {tok : List Int}
    (htok : argv[s.optind]? = some tok) (hlen : 1 ≤ tok.length) (hsp : s.sp = 1)
    (hsp1 : s1.sp = s.sp) (hind : s.optind < s1.optind) :
    remaining argv s1 < remaining argv s := by
  rw [remaining_eq, remaining_eq, chars_drop_getElem htok, hsp1, hsp]
  have := chars_drop_mono argv (show s.optind + 1 ≤ s1.optind from hind)
  omega

theorem run_calls_succ (scan : State → Option (Int × State)) (n : Nat) (s : State) :
    run_calls scan (n + 1) s =
      match scan s with
      | none => none
      | some (r, s1) =>
        match run_calls scan n s1 with
        | none => none
        | some (rs, s2) => some (r :: rs, s2) := by
  induction n generalizing s with
  | zero =>
    simp only [run_calls]
    cases scan s with
    | none => rfl
    | some p => rfl
  | succ n ih =>
    rw [run_calls, ih]
    cases h : scan s with
    | none => rfl
    | some p =>
      obtain ⟨r, s1⟩ := p
      simp only
      rw [run_calls]
      cases h2 : run_calls scan n s1 with
      | none => rfl
      | some q =>
        obtain ⟨rs, s2⟩ := q
        simp only
        cases h3 : scan s2 with
        | none => rfl
        | some q2 => rfl

/-- A scanner that always returns on the states of an invariant, keeps the invariant and leaves
fewer characters whenever it does not return -1, returns -1 after at most as many calls as
characters are left. -/
theorem loop_terminates (scan : State → Option (Int × State)) (inv : State → Prop)
    (mu : State → Nat)
    (htot : ∀ s, inv s → ∃ r s1, scan s = some (r, s1))
    (hpres : ∀ s r s1, inv s → scan s = some (r, s1) → inv s1)
    (hdec : ∀ s r s1, inv s → scan s = some (r, s1) → r ≠ -1 → mu s1 < mu s) :
    ∀ m s, inv s → mu s ≤ m →
      ∃ k rs s1, k ≤ mu s ∧ run_calls scan k s = some (rs, s1) ∧ (∀ r ∈ rs, r ≠ -1) ∧
        ∃ s2, scan s1 = some (-1, s2) := by
  intro m
  induction m with
  | zero =>
    intro s hs hm
    obtain ⟨r, s1, h1⟩ := htot s hs
    by_cases hr : r = -1
    · subst hr
      exact ⟨0, [], s, Nat.zero_le _, rfl, by simp, s1, h1⟩
    · have := hdec s r s1 hs h1 hr
      omega
  | succ m ih =>
    intro s hs hm
    obtain ⟨r, s1, h1⟩ := htot s hs
    by_cases hr : r = -1
    · subst hr
      exact ⟨0, [], s, Nat.zero_le _, rfl, by simp, s1, h1⟩
    · have hlt := hdec s r s1 hs h1 hr
      obtain ⟨k, rs, s2, k1, k2, k3, k4⟩ := ih s1 (hpres s r s1 hs h1) (by omega)
      refine ⟨k + 1, r :: rs, s2, by omega, ?_, ?_, k4⟩
      · rw [run_calls_succ, h1]
        simp only [k2]
      · intro x hx
        rcases List.mem_cons.mp hx with hx | hx
        · rw [hx]; exact hr
        · exact k3 x hx

/-- Such a scanner never reads out of bounds, however many calls are made. -/
theorem run_calls_total (scan : State → Option (Int × State)) (inv : State → Prop)
    (htot : ∀ s, inv s → ∃ r s1, scan s = some (r, s1))
    (hpres : ∀ s r s1, inv s → scan s = some (r, s1) → inv s1) :
    ∀ n s, inv s → ∃ rs s1, run_calls scan n s = some (rs, s1) ∧ inv s1 := by
  intro n
  induction n with
  | zero => intro s hs; exact ⟨[], s, rfl, hs⟩
  | succ n ih =>
    intro s hs
    obtain ⟨rs, s1, h1, h2⟩ := ih s hs
    obtain ⟨r, s2, h3⟩ := htot s1 h2
    exact ⟨rs ++ [r], s2, by simp only [run_calls, h1, h3], hpres s1 r s2 h2 h3⟩


/-- Whatever a call of either scanner returns, `optind` has not decreased and has not left the
vector; unless the call returns -1, the cursor is further: on a later token, or on a later
character of the same token. -/
theorem scan_call_moves {argv : List (List Int)} {optstring : List Int}
    {lo : Option (List option)} {li : Bool} {b : Bool} {s s1 : State} {r : Int}
    (h : scan_call argv optstring lo li b s = some (r, s1)) :
    s.optind ≤ s1.optind ∧ s1.optind ≤ max s.optind argv.length ∧
    (r ≠ -1 → s.optind < s1.optind ∨ (s1.optind = s.optind ∧ s.sp < s1.sp)) := by
  have hend : ∀ {x : State}, (x = s ∨
      (x = { s with optind := s.optind + 1 } ∧ argv[s.optind]? = some (cstr "--"))) →
      s.optind ≤ x.optind ∧ x.optind ≤ max s.optind argv.length := by
    intro x hx
    rcases hx with hx | ⟨hx, ht⟩
    · rw [hx]; exact ⟨Nat.le_refl _, Nat.le_max_left _ _⟩
    · have := lt_length_of_getElem? ht
      rw [hx]
      exact ⟨Nat.le_succ _, by simp; omega⟩
  have hstep : ∀ {tok : List Int}, stepped argv s s1 tok →
      s.optind ≤ s1.optind ∧ s1.optind ≤ max s.optind argv.length ∧
      (r ≠ -1 → s.optind < s1.optind ∨ (s1.optind = s.optind ∧ s.sp < s1.sp)) := by
    intro tok hst
    rcases hst with ⟨a1, a2, _⟩ | ⟨_, a2, a3, _⟩
    · exact ⟨by omega, by rw [a1]; exact Nat.le_max_left _ _, fun _ => Or.inr ⟨a1, by omega⟩⟩
    · exact ⟨by omega, Nat.le_trans a3 (Nat.le_max_right _ _), fun _ => Or.inl a2⟩
  unfold scan_call at h
  cases b with
  | false =>
    simp only [Bool.false_eq_true, if_false] at h
    obtain ⟨_, _, h3⟩ := getopt_result h
    rcases h3 with ⟨r1, _, r3⟩ | ⟨tok, _, _, hst⟩
    · exact ⟨(hend r3).1, (hend r3).2, fun hr => absurd r1 hr⟩
    · exact hstep hst
  | true =>
    simp only [if_true] at h
    rcases getopt_long_result h with ⟨r1, r3⟩ | ⟨tok, _, _, _, k3, k4, _⟩ |
      ⟨tok, _, _, _, _, _, _, hst⟩
    · exact ⟨(hend r3).1, (hend r3).2, fun hr => absurd r1 hr⟩
    · exact ⟨by omega, Nat.le_trans k4 (Nat.le_max_right _ _), fun _ => Or.inl k3⟩
    · exact hstep hst

theorem session_optind {argv : List (List Int)} {optstring : List Int}
    {lo : Option (List option)} {li : Bool} (calls : List Bool) :
    ∀ {s s1 : State} {rs : List Int}, session argv optstring lo li calls s = some (rs, s1) →
      s.optind ≤ s1.optind ∧ s1.optind ≤ max s.optind argv.length := by
  induction calls with
  | nil =>
    intro s s1 rs h
    simp only [session, Option.some.injEq, Prod.mk.injEq] at h
    rw [← h.2]
    exact ⟨Nat.le_refl _, Nat.le_max_left _ _⟩
  | cons b bs ih =>
    intro s s1 rs h
    simp only [session] at h
    cases hc : scan_call argv optstring lo li b s with
    | none => simp [hc] at h
    | some p =>
      obtain ⟨r, s2⟩ := p
      simp only [hc] at h
      cases hs : session argv optstring lo li bs s2 with
      | none => simp [hs] at h
      | some q =>
        obtain ⟨rs2, s3⟩ := q
        simp only [hs, Option.some.injEq, Prod.mk.injEq] at h
        obtain ⟨m1, m2, _⟩ := scan_call_moves hc
        obtain ⟨n1, n2⟩ := ih hs
        rw [← h.2]
        refine ⟨by omega, ?_⟩
        rcases Nat.le_total s2.optind argv.length with hle | hle
        · rw [Nat.max_eq_right hle] at n2
          exact Nat.le_trans n2 (Nat.le_max_right _ _)
        · rw [Nat.max_eq_left hle] at n2
          exact Nat.le_trans n2 m2


theorem run_calls_inv (scan : State → Option (Int × State)) (inv : State → Prop)
    (hpres : ∀ s r s1, inv s → scan s = some (r, s1) → inv s1) :
    ∀ n s rs s1, inv s → run_calls scan n s = some (rs, s1) → inv s1 := by
  intro n
  induction n with
  | zero =>
    intro s rs s1 hs h
    simp only [run_calls, Option.some.injEq, Prod.mk.injEq] at h
    rw [← h.2]; exact hs
  | succ n ih =>
    intro s rs s1 hs h
    simp only [run_calls] at h
    cases h1 : run_calls scan n s with
    | none => simp [h1] at h
    | some p =>
      obtain ⟨rs1, s2⟩ := p
      simp only [h1] at h
      cases h2 : scan s2 with
      | none => simp [h2] at h
      | some q =>
        obtain ⟨r, s3⟩ := q
        simp only [h2, Option.some.injEq, Prod.mk.injEq] at h
        rw [← h.2]
        exact hpres s2 r s3 (ih s rs1 s2 hs h1) h2

/-- In a session of `getopt` alone every call that does not return -1 leaves fewer characters. -/
theorem getopt_decreases {argv : List (List Int)} {optstring : List Int} {s s1 : State}
    {r : Int} (hok : cursorOk argv s) (h : getopt argv optstring s = some (r, s1))
    (hr : r ≠ -1) : remaining argv s1 < remaining argv s := by
  obtain ⟨_, _, h3⟩ := getopt_result h
  rcases h3 with ⟨r1, _⟩ | ⟨tok, htok, hhead, hst⟩
  · exact absurd r1 hr
  · apply remaining_lt_of_stepped htok hst
    rcases hok with hsp | ⟨tok2, h1, _, _, h5⟩
    · have := hhead hsp
      cases tok with
      | nil => simp at this
      | cons a t => simp [hsp]
    · rw [htok] at h1; cases h1; omega

/-- The same in a session of `getopt_long` alone. -/
theorem getopt_long_decreases {argv : List (List Int)} {optstring : List Int}
    {lo : Option (List option)} {li : Bool} {s s1 : State}
    {r : Int} (hok : cursorOkLong argv s)
    (h : getopt_long argv optstring lo li s = some (r, s1))
    (hr : r ≠ -1) : remaining argv s1 < remaining argv s := by
  rcases getopt_long_result h with ⟨r1, _⟩ | ⟨tok, htok, hs, k2, k3, _⟩ |
    ⟨tok, htok, _, _, hg, _⟩
  · exact absurd r1 hr
  · obtain ⟨x, t, hxt, _⟩ := chars_of_longShaped hs
    have hsp : s.sp = 1 := by
      rcases hok with hsp | ⟨tok2, h1, _, h3, _⟩
      · exact hsp
      · rw [htok] at h1; cases h1; rw [hs] at h3; cases h3
    exact remaining_lt_of_long htok (by rw [hxt]; simp) hsp k2 k3
  · exact getopt_decreases (cursorOk_of_long hok) hg hr


/-! ## Claims on the short-option scanner -/

/-- C1 (amended): in every cursor state where `getopt` inspects the character
`c` at `sp` of the token at `optind` (mid-cluster, or at the start of a token
that begins with `-` and is not `--`), `c` is not `:` and the first occurrence
of `c` in `optstring` is followed by `:`, the call returns `c`; when characters
remain after `c` they are `optarg` and `optind` advances by one, otherwise an
existing following token is `optarg` and `optind` advances by two; `sp` is
reset to 1 and only `optopt`, `optarg`, `optind`, `sp` change. -/
theorem getopt_value_letter (argv : List (List Int)) (optstring : List Int) (s : State)
    (tok : List Int) (c : Int)
    (htok : argv[s.optind]? = some tok) (hnul : (0 : Int) ∉ tok)
    (hc : tok[s.sp]? = some c)
    (hS : takesValue optstring c)
    (hcolon : c ≠ ch ':')
    (hfresh : s.sp = 1 → tok.head? = some (ch '-') ∧ tok ≠ cstr "--") :
    (s.sp + 1 < tok.length →
      getopt argv optstring s =
        some (c, { s with optopt := c, optarg := some (tok.drop (s.sp + 1)),
                          optind := s.optind + 1, sp := 1 })) ∧
    (s.sp + 1 = tok.length → ∀ val, argv[s.optind + 1]? = some val →
      getopt argv optstring s =
        some (c, { s with optopt := c, optarg := some val, optind := s.optind + 2, sp := 1 })) := by
  rw [getopt_of_scan htok (charAt_of_getElem? hc) (getElem?_ne_zero hnul hc) hfresh]
  exact ⟨fun hlt => getopt_scan_attached htok hnul hc hS hcolon hlt,
    fun hend val hnext => getopt_scan_separate htok hc hS hcolon hend hnext⟩

/-- C1 as stated fails in three cursor states whose character at `sp` is
followed by `:` in `optstring`: the character `:` itself (`"-:x"` with `"a::"`)
is reported as an error and the cluster goes on; a token that does not begin
with `-` (`"xo"` with `"o:"`) and the terminator `"--"` (with `"-:"`) end the
options without returning the character. -/
theorem getopt_value_letter_counterexample :
    ((cstr "-:x")[1]? = some (ch ':') ∧ takesValue (cstr "a::") (ch ':') ∧
      (getopt [cstr "prog", cstr "-:x"] (cstr "a::") (State.initial (fun _ => 0) 0)).map
          (fun p => (p.1, p.2.optarg, p.2.optind, p.2.sp))
        = some (ch '?', none, 1, 2)) ∧
    ((cstr "xo")[1]? = some (ch 'o') ∧ takesValue (cstr "o:") (ch 'o') ∧
      (getopt [cstr "prog", cstr "xo", cstr "v"] (cstr "o:") (State.initial (fun _ => 0) 0)).map
          (fun p => (p.1, p.2.optarg, p.2.optind, p.2.sp))
        = some (-1, none, 1, 1)) ∧
    ((cstr "--")[1]? = some (ch '-') ∧ takesValue (cstr "-:") (ch '-') ∧
      (getopt [cstr "prog", cstr "--", cstr "v"] (cstr "-:") (State.initial (fun _ => 0) 0)).map
          (fun p => (p.1, p.2.optarg, p.2.optind, p.2.sp))
        = some (-1, none, 2, 1)) := by
  refine ⟨⟨by decide, by decide, by decide⟩, ⟨by decide, by decide, by decide⟩, by decide, by decide, by decide⟩

/-- C1, the two examples: `"-oVALUE"` and `"-o" "VALUE"` with `"o:"` both give
`o` with value `"VALUE"`. -/
theorem getopt_value_letter_witness :
    getopt [cstr "prog", cstr "-oVALUE"] (cstr "o:") (State.initial (fun _ => 0) 0)
        = some (ch 'o', { State.initial (fun _ => 0) 0 with
                            optopt := ch 'o', optarg := some (cstr "VALUE"), optind := 2, sp := 1 }) ∧
    getopt [cstr "prog", cstr "-o", cstr "VALUE"] (cstr "o:") (State.initial (fun _ => 0) 0)
        = some (ch 'o', { State.initial (fun _ => 0) 0 with
                            optopt := ch 'o', optarg := some (cstr "VALUE"), optind := 3, sp := 1 }) :=
  ⟨(getopt_value_letter [cstr "prog", cstr "-oVALUE"] (cstr "o:") (State.initial (fun _ => 0) 0)
      (cstr "-oVALUE") (ch 'o') (by decide) (by decide) (by decide) (by decide) (by decide)
      (by decide)).1 (by decide),
   (getopt_value_letter [cstr "prog", cstr "-o", cstr "VALUE"] (cstr "o:")
      (State.initial (fun _ => 0) 0) (cstr "-o") (ch 'o') (by decide) (by decide) (by decide)
      (by decide) (by decide) (by decide)).2 (by decide) (cstr "VALUE") (by decide)⟩

/-- C7 (amended): in every cursor state where `getopt` inspects the character
`c` at `sp` of the current token (mid-cluster, or at the start of a token that
begins with `-` and is not `--`) and `c` is `:` or does not occur in
`optstring`, the call returns `'?'` with `optopt = c`, leaves `optarg`
unchanged, writes the diagnostic only when `opterr` is set, and advances past
that one character: `sp` increases by one when more characters remain,
otherwise `optind` advances by one and `sp` is reset to 1; the next call
inspects the following character of the cluster. -/
theorem getopt_illegal_char (prog : List Int) (rest : List (List Int)) (optstring : List Int)
    (s : State) (tok : List Int) (c : Int)
    (htok : (prog :: rest)[s.optind]? = some tok) (hnul : (0 : Int) ∉ tok)
    (hc : tok[s.sp]? = some c) (hbad : c = ch ':' ∨ c ∉ optstring)
    (hfresh : s.sp = 1 → tok.head? = some (ch '-') ∧ tok ≠ cstr "--") :
    (s.sp + 1 < tok.length →
      getopt (prog :: rest) optstring s =
        some (ch '?', { diagnosed { s with optopt := c } (msg_illegal prog c) with
                          sp := s.sp + 1 })) ∧
    (s.sp + 1 = tok.length →
      getopt (prog :: rest) optstring s =
        some (ch '?', { diagnosed { s with optopt := c } (msg_illegal prog c) with
                          sp := 1, optind := s.optind + 1 })) ∧
    (1 ≤ s.sp → ∀ d, tok[s.sp + 1]? = some d →
      ∃ r s2, getopt (prog :: rest) optstring
          { diagnosed { s with optopt := c } (msg_illegal prog c) with sp := s.sp + 1 }
            = some (r, s2) ∧ s2.optopt = d) := by
  rw [getopt_of_scan htok (charAt_of_getElem? hc) (getElem?_ne_zero hnul hc) hfresh,
    getopt_scan_illegal htok hnul hc hbad]
  refine ⟨fun hlt => ?_, fun hend => ?_, fun h1 d hd => ?_⟩
  · rw [advance_of_lt hnul (by rw [(diagnosed_fields _ _).2.2.2.2.1]; exact hlt)]
    simp [(diagnosed_fields _ _).2.2.2.2.1]
  · rw [advance_of_eq (by rw [(diagnosed_fields _ _).2.2.2.2.1]; exact hend)]
    simp [(diagnosed_fields _ _).2.1]
  · have hne : ¬ (s.sp + 1 = 1) := by omega
    have hk : (prog :: rest)[({ diagnosed { s with optopt := c } (msg_illegal prog c) with
        sp := s.sp + 1 } : State).optind]? = some tok := by
      simpa [(diagnosed_fields _ _).2.1] using htok
    obtain ⟨r, s2, h2, h3⟩ := getopt_scan_optopt optstring hk hnul
      (show tok[({ diagnosed { s with optopt := c } (msg_illegal prog c) with
        sp := s.sp + 1 } : State).sp]? = some d from hd)
    refine ⟨r, s2, ?_, h3⟩
    rw [← h2]
    unfold getopt
    simp [hne]

/-- C7 as stated fails at the start of a token that is not an option token:
the second character `-` of the terminator `"--"`, and the `y` of the
positional token `"xy"`, do not occur in `"a"`, yet the call is no error: it
returns -1 and leaves `optopt` alone. -/
theorem getopt_illegal_char_counterexample :
    ((cstr "--")[1]? = some (ch '-') ∧ ch '-' ∉ cstr "a" ∧
      (getopt [cstr "prog", cstr "--", cstr "-a"] (cstr "a") (State.initial (fun _ => 0) 0)).map
          (fun p => (p.1, p.2.optopt, p.2.optind, p.2.sp))
        = some (-1, ch '?', 2, 1)) ∧
    ((cstr "xy")[1]? = some (ch 'y') ∧ ch 'y' ∉ cstr "a" ∧
      (getopt [cstr "prog", cstr "xy"] (cstr "a") (State.initial (fun _ => 0) 0)).map
          (fun p => (p.1, p.2.optopt, p.2.optind, p.2.sp))
        = some (-1, ch '?', 1, 1)) := by
  refine ⟨⟨by decide, by decide, by decide⟩, by decide, by decide, by decide⟩

/-- C7 on `"-xa"` with `"a"`: the unknown `x` is reported and `a` is next. -/
theorem getopt_illegal_char_witness :
    getopt [cstr "prog", cstr "-xa"] (cstr "a") (State.initial (fun _ => 0) 0) =
      some (ch '?', { diagnosed { State.initial (fun _ => 0) 0 with optopt := ch 'x' }
                        (msg_illegal (cstr "prog") (ch 'x')) with sp := 2 }) :=
  (getopt_illegal_char (cstr "prog") [cstr "-xa"] (cstr "a") (State.initial (fun _ => 0) 0)
    (cstr "-xa") (ch 'x') (by decide) (by decide) (by decide) (by decide) (by decide)).1
    (by decide)

/-- C2: when every character of the non-empty text `w` is neither `-` nor
`:` and occurs in `optstring` with its first occurrence not followed by `:`,
then from a cursor with `optind = 1`, `sp = 1` on `[prog, "-" ++ w]` the first
`k` calls of `getopt` (for every `k` up to the length of `w`) return the first
`k` characters of `w` in order and leave the cursor `cluster_state s w k`:
`optarg` empty, `optind` still 1 with `sp = k + 1` while letters remain, and
`optind = 2`, `sp = 1` after the last letter; one more call returns -1. -/
theorem getopt_cluster (prog : List Int) (optstring w : List Int) (s : State)
    (hw : w ≠ []) (hnul : (0 : Int) ∉ w)
    (hall : ∀ c ∈ w, c ≠ ch '-' ∧ c ≠ ch ':' ∧ c ∈ optstring ∧ ¬ takesValue optstring c)
    (hind : s.optind = 1) (hsp : s.sp = 1) :
    cluster_state s w 0 = s ∧
    (∀ k, k ≤ w.length →
      run_calls (getopt [prog, ch '-' :: w] optstring) k s = some (w.take k, cluster_state s w k)) ∧
    run_calls (getopt [prog, ch '-' :: w] optstring) (w.length + 1) s =
      some (w ++ [-1], cluster_state s w w.length) := by
  have hpos : 0 < w.length := List.length_pos.mpr hw
  have h0 : cluster_state s w 0 = s := by
    cases s
    simp only [cluster_state, hpos, if_true] at *
    simp [hind, hsp]
  have hrun : ∀ k, k ≤ w.length →
      run_calls (getopt [prog, ch '-' :: w] optstring) k s =
        some (w.take k, cluster_state s w k) := by
    intro k
    induction k with
    | zero => intro _; simp [run_calls, h0]
    | succ k ih =>
      intro hk
      have hk2 : k < w.length := hk
      simp only [run_calls, ih (Nat.le_of_lt hk2), cluster_step prog optstring w s hnul hall k hk2]
      rw [List.take_succ, List.getElem?_eq_getElem hk2]
      rfl
  refine ⟨h0, hrun, ?_⟩
  have hlast : getopt [prog, ch '-' :: w] optstring (cluster_state s w w.length) =
      some (-1, cluster_state s w w.length) := by
    simp [getopt, cluster_state]
  simp only [run_calls, hrun w.length (Nat.le_refl _), hlast, List.take_length]

/-- C2 on `"-abc"` with `"abc"`: `a`, `b`, `c`, then -1. -/
theorem getopt_cluster_witness :
    run_calls (getopt [cstr "prog", cstr "-abc"] (cstr "abc")) 4 (State.initial (fun _ => 0) 0) =
      some (cstr "abc" ++ [-1], cluster_state (State.initial (fun _ => 0) 0) (cstr "abc") 3) :=
  (getopt_cluster (cstr "prog") (cstr "abc") (cstr "abc") (State.initial (fun _ => 0) 0)
    (by decide) (by decide) (by decide) rfl rfl).2.2

/-- C3 (amended): for a specification that is a non-empty C string and a
letter `c` of it other than `:` whose first occurrence is not followed by `:`,
on a vector `prog, "-c", rest...`, where `"-c"` comes right after the program
name, is an option token (so not the terminator `--`) and no later token is
one, the first call of `getopt` from a cursor with `optind = 1`, `sp = 1`
returns `c` with `optarg` empty and `optind = 2`, and the next call returns
-1. -/
theorem getopt_single_letter (prog : List Int) (rest : List (List Int)) (optstring : List Int)
    (c : Int) (s : State)
    (hS : validSpec optstring) (hc : c ∈ optstring) (hcolon : c ≠ ch ':')
    (hno : ¬ takesValue optstring c)
    (hopt : optionToken [ch '-', c]) (hrest : ∀ t ∈ rest, ¬ optionToken t)
    (hind : s.optind = 1) (hsp : s.sp = 1) :
    getopt (prog :: [ch '-', c] :: rest) optstring s =
      some (c, { s with optopt := c, optarg := none, optind := 2 }) ∧
    ∃ s2, getopt (prog :: [ch '-', c] :: rest) optstring
        { s with optopt := c, optarg := none, optind := 2 } = some (-1, s2) := by
  have hc0 : c ≠ 0 := fun e => hS.2 (e ▸ hc)
  have htok : (prog :: [ch '-', c] :: rest)[s.optind]? = some [ch '-', c] := by simp [hind]
  have hnul : (0 : Int) ∉ [ch '-', c] := by
    intro h
    rcases List.mem_cons.mp h with h | h
    · exact absurd h (by decide)
    · exact hc0 (List.mem_singleton.mp h).symm
  have hcs : [ch '-', c][s.sp]? = some c := by simp [hsp]
  have hfresh : s.sp = 1 → [ch '-', c].head? = some (ch '-') ∧ [ch '-', c] ≠ cstr "--" :=
    fun _ => ⟨hopt.1, hopt.2.2⟩
  constructor
  · rw [(getopt_plain_letter htok hnul hcs hc hcolon hno hfresh).2 (by simp [hsp])]
    cases s
    simp at hind hsp
    simp [hind, hsp]
  · apply getopt_not_option
    · exact hsp
    · intro t ht
      have : t ∈ rest := by
        have h2 : rest[0]? = some t := by simpa using ht
        exact List.getElem?_mem h2
      exact hrest t this

/-- C3 as stated fails when the only option token `"-c"` does not come right
after the program name: on `prog file -c` with `"c"` the positional token
`file` ends the options, every call returns -1 and `c` is never reported; on
`prog -- -c` the first call returns -1 at the terminator, before `c`. -/
theorem getopt_single_letter_counterexample :
    (validSpec (cstr "c") ∧ ch 'c' ∈ cstr "c" ∧ ch 'c' ≠ ch ':' ∧
      ¬ takesValue (cstr "c") (ch 'c') ∧ optionToken (cstr "-c")) ∧
    ((∀ t ∈ [cstr "prog", cstr "file", cstr "-c"], optionToken t → t = cstr "-c") ∧
      (run_calls (getopt [cstr "prog", cstr "file", cstr "-c"] (cstr "c")) 2
          (State.initial (fun _ => 0) 0)).map (fun p => (p.1, p.2.optind, p.2.optopt))
        = some ([-1, -1], 1, ch '?')) ∧
    ((∀ t ∈ [cstr "prog", cstr "--", cstr "-c"], optionToken t → t = cstr "-c") ∧
      (run_calls (getopt [cstr "prog", cstr "--", cstr "-c"] (cstr "c")) 2
          (State.initial (fun _ => 0) 0)).map (fun p => (p.1, p.2.optind, p.2.optopt))
        = some ([-1, ch 'c'], 3, ch 'c')) := by
  refine ⟨⟨by decide, by decide, by decide, by decide, by decide⟩, ⟨by decide, by decide⟩,
    by decide, by decide⟩

/-- C3 on `prog -v file` with `"vo:"`. -/
theorem getopt_single_letter_witness :
    getopt [cstr "prog", [ch '-', ch 'v'], cstr "file"] (cstr "vo:")
        (State.initial (fun _ => 0) 0) =
      some (ch 'v', { State.initial (fun _ => 0) 0 with
                        optopt := ch 'v', optarg := none, optind := 2 }) ∧
    ∃ s2, getopt [cstr "prog", [ch '-', ch 'v'], cstr "file"] (cstr "vo:")
        { State.initial (fun _ => 0) 0 with optopt := ch 'v', optarg := none, optind := 2 } =
      some (-1, s2) :=
  getopt_single_letter (cstr "prog") [cstr "file"] (cstr "vo:") (ch 'v')
    (State.initial (fun _ => 0) 0) (by decide) (by decide) (by decide) (by decide) (by decide)
    (by decide) rfl rfl

/-! ## Claims on the long-option scanner -/

/-- C4: for a token `"--" ++ r` at `optind` (`r` a non-empty C string) and a
table of C-string names, the lookup of `getopt_long` selects entry `i` exactly
when `i` is the first entry whose name equals the part of `r` before its
first `=`; the call then is `long_found` on that entry and the cell of
`longindex`, when the pointer is given, holds `i`; when no entry name equals
that part (a proper abbreviation or a proper extension of a name included) the
call returns `'?'` after the unrecognized-option diagnostic and the cell of
`longindex` is unchanged. -/
theorem getopt_long_exact_name (prog : List Int) (rest : List (List Int)) (optstring : List Int)
    (os : List option) (li : Bool) (s : State) (r : List Int)
    (htok : (prog :: rest)[s.optind]? = some (ch '-' :: ch '-' :: r))
    (hr : r ≠ []) (hnul : (0 : Int) ∉ r) (hnames : ∀ o ∈ os, (0 : Int) ∉ o.name) :
    (∀ i o, long_lookup (some os) r (name_len r) = some (some (i, o)) ↔
      (os[i]? = some o ∧ o.name = name_part r ∧
        ∀ j o1, j < i → os[j]? = some o1 → o1.name ≠ name_part r)) ∧
    (∀ i o, long_lookup (some os) r (name_len r) = some (some (i, o)) →
      getopt_long (prog :: rest) optstring (some os) li s =
        long_found (prog :: rest) r (strchr r (ch '=')) li i o s ∧
      ∃ ret s1, getopt_long (prog :: rest) optstring (some os) li s = some (ret, s1) ∧
        s1.longindex = if li then Int.ofNat i else s.longindex) ∧
    ((∀ o ∈ os, o.name ≠ name_part r) →
      getopt_long (prog :: rest) optstring (some os) li s =
        some (ch '?', { diagnosed s (msg_unrecognized prog r) with optind := s.optind + 1 }) ∧
      ({ diagnosed s (msg_unrecognized prog r) with optind := s.optind + 1 } : State).longindex
        = s.longindex) := by
  obtain ⟨x, t, rfl, hx⟩ := cons_of_ne_nil hr hnul
  have hiff : ∀ i o, long_lookup (some os) (x :: t) (name_len (x :: t)) = some (some (i, o)) ↔
      (os[i]? = some o ∧ o.name = name_part (x :: t) ∧
        ∀ j o1, j < i → os[j]? = some o1 → o1.name ≠ name_part (x :: t)) := by
    intro i o
    unfold long_lookup
    rw [find_match_iff (name_len_le _) os hnames 0 i o, take_name_len]
    constructor
    · rintro ⟨k, hk, h1, h2, h3⟩
      have : i = k := by omega
      subst this
      exact ⟨h1, h2, h3⟩
    · rintro ⟨h1, h2, h3⟩
      exact ⟨i, by omega, h1, h2, h3⟩
  refine ⟨hiff, ?_, ?_⟩
  · intro i o hfound
    have hcall : getopt_long (prog :: rest) optstring (some os) li s =
        long_found (prog :: rest) (x :: t) (strchr (x :: t) (ch '=')) li i o s := by
      rw [getopt_long_of_long optstring (some os) li htok hx]
      exact getopt_long_scan_found li s hfound
    refine ⟨hcall, ?_⟩
    rw [hcall]
    obtain ⟨ret, s1, h1, h2, _⟩ := long_found_fields prog rest (x :: t)
      (strchr (x :: t) (ch '=')) li i o s
    exact ⟨ret, s1, h1, h2⟩
  · intro hno
    rw [getopt_long_of_long optstring (some os) li htok hx,
      getopt_long_scan_unrecognized (some os) li s (x :: t)
        (fun os1 h1 => by cases h1; exact ⟨hnames, hno⟩)]
    exact ⟨rfl, by simp⟩

/-- C4 on `--na` and `--name=5` against the names `n` and `name`: `na`, which extends the one
and abbreviates the other, matches nothing; `name` selects entry 1. -/
theorem getopt_long_exact_name_witness :
    (getopt_long [cstr "prog", cstr "--na"] (cstr "a")
        (some [⟨cstr "n", 0, none, 1⟩, ⟨cstr "name", 1, none, 2⟩]) true
        (State.initial (fun _ => 0) 7) =
      some (ch '?', { diagnosed (State.initial (fun _ => 0) 7)
                        (msg_unrecognized (cstr "prog") (cstr "na")) with optind := 2 }) ∧
    ({ diagnosed (State.initial (fun _ => 0) 7)
         (msg_unrecognized (cstr "prog") (cstr "na")) with optind := 2 } : State).longindex = 7) ∧
    (getopt_long [cstr "prog", cstr "--name=5"] (cstr "a")
        (some [⟨cstr "n", 0, none, 1⟩, ⟨cstr "name", 1, none, 2⟩]) true
        (State.initial (fun _ => 0) 7) =
      long_found [cstr "prog", cstr "--name=5"] (cstr "name=5") (strchr (cstr "name=5") (ch '='))
        true 1 ⟨cstr "name", 1, none, 2⟩ (State.initial (fun _ => 0) 7) ∧
    ∃ ret s1, getopt_long [cstr "prog", cstr "--name=5"] (cstr "a")
        (some [⟨cstr "n", 0, none, 1⟩, ⟨cstr "name", 1, none, 2⟩]) true
        (State.initial (fun _ => 0) 7) = some (ret, s1) ∧
      s1.longindex = if true = true then Int.ofNat 1 else 7) :=
  ⟨(getopt_long_exact_name (cstr "prog") [cstr "--na"] (cstr "a")
      [⟨cstr "n", 0, none, 1⟩, ⟨cstr "name", 1, none, 2⟩] true (State.initial (fun _ => 0) 7)
      (cstr "na") (by decide) (by decide) (by decide) (by decide)).2.2 (by decide),
   (getopt_long_exact_name (cstr "prog") [cstr "--name=5"] (cstr "a")
      [⟨cstr "n", 0, none, 1⟩, ⟨cstr "name", 1, none, 2⟩] true (State.initial (fun _ => 0) 7)
      (cstr "name=5") (by decide) (by decide) (by decide) (by decide)).2.1 1
      ⟨cstr "name", 1, none, 2⟩ rfl⟩

/-- C5: when the first table entry named `N` (non-empty, without `=`) requires
an argument and has no flag target, `getopt_long` from `optind = 1` returns the
entry's value with `optarg = V` both on `prog, "--N=V", rest...` and on
`prog, "--N", V, rest...`; `optind` becomes 2 in the inline form, whatever
follows, and 3 in the separate form. -/
theorem getopt_long_required_forms (prog : List Int) (rest : List (List Int))
    (optstring : List Int) (os : List option) (li : Bool) (s : State)
    (i : Nat) (e : option) (N V : List Int)
    (hN : N ≠ []) (hNeq : ch '=' ∉ N) (hNnul : (0 : Int) ∉ N)
    (hnames : ∀ o ∈ os, (0 : Int) ∉ o.name)
    (hi : os[i]? = some e) (hname : e.name = N)
    (hfirst : ∀ j o1, j < i → os[j]? = some o1 → o1.name ≠ N)
    (hreq : e.has_arg = required_argument) (hflag : e.flag = none)
    (hind : s.optind = 1) :
    getopt_long (prog :: (ch '-' :: ch '-' :: (N ++ ch '=' :: V)) :: rest) optstring (some os) li s
      = some (e.val, { set_longindex li i s with optarg := some V, optind := 2 }) ∧
    getopt_long (prog :: (ch '-' :: ch '-' :: N) :: V :: rest) optstring (some os) li s
      = some (e.val, { set_longindex li i s with optarg := some V, optind := 3 }) := by
  obtain ⟨x, t, hxt, hx⟩ := cons_of_ne_nil hN hNnul
  have hret : ∀ st : State, long_return e st = (e.val, { st with optind := st.optind + 1 }) := by
    intro st
    simp [long_return, hflag]
  constructor
  · have htok : (prog :: (ch '-' :: ch '-' :: (N ++ ch '=' :: V)) :: rest)[s.optind]? =
        some (ch '-' :: ch '-' :: (x :: (t ++ ch '=' :: V))) := by
      simp [hind, hxt]
    have hfound : long_lookup (some os) (N ++ ch '=' :: V) (name_len (N ++ ch '=' :: V)) =
        some (some (i, e)) := by
      unfold long_lookup
      rw [find_match_iff (name_len_le _) os hnames 0 i e, take_name_len, name_part_inline N V hNeq]
      exact ⟨i, by omega, hi, hname, hfirst⟩
    rw [getopt_long_of_long optstring (some os) li htok hx]
    have h2 : x :: (t ++ ch '=' :: V) = N ++ ch '=' :: V := by simp [hxt]
    rw [h2, getopt_long_scan_found li s hfound, strchr_inline N V hNeq,
      long_found_required_inline _ _ _ _ _ _ hreq, hret]
    simp [hind]
  · have htok : (prog :: (ch '-' :: ch '-' :: N) :: V :: rest)[s.optind]? =
        some (ch '-' :: ch '-' :: x :: t) := by
      simp [hind, hxt]
    have hfound : long_lookup (some os) N (name_len N) = some (some (i, e)) := by
      unfold long_lookup
      rw [find_match_iff (name_len_le _) os hnames 0 i e, take_name_len, name_part_plain N hNeq]
      exact ⟨i, by omega, hi, hname, hfirst⟩
    rw [getopt_long_of_long optstring (some os) li htok hx, ← hxt,
      getopt_long_scan_found li s hfound, strchr_plain N hNeq,
      long_found_required_next _ _ _ _ _ hreq
        (show (prog :: (ch '-' :: ch '-' :: N) :: V :: rest)[s.optind + 1]? = some V from by
          simp [hind]), hret]
    simp [hind]

/-- C5 on `--name=value` and `--name value`. -/
theorem getopt_long_required_forms_witness :
    getopt_long [cstr "prog", cstr "--name=value"] (cstr "a")
        (some [⟨cstr "name", required_argument, none, 5⟩]) false (State.initial (fun _ => 0) 0) =
      some (5, { State.initial (fun _ => 0) 0 with optarg := some (cstr "value"), optind := 2 }) ∧
    getopt_long [cstr "prog", cstr "--name", cstr "value"] (cstr "a")
        (some [⟨cstr "name", required_argument, none, 5⟩]) false (State.initial (fun _ => 0) 0) =
      some (5, { State.initial (fun _ => 0) 0 with optarg := some (cstr "value"), optind := 3 }) :=
  getopt_long_required_forms (cstr "prog") [] (cstr "a")
    [⟨cstr "name", required_argument, none, 5⟩] false (State.initial (fun _ => 0) 0) 0
    ⟨cstr "name", required_argument, none, 5⟩ (cstr "name") (cstr "value")
    (by decide) (by decide) (by decide) (by decide) rfl rfl
    (fun j _ hj => absurd hj (Nat.not_lt_zero j)) rfl rfl rfl

/-- C6: when a letter `c` that takes a value is the last character of the last
token and `getopt` inspects it, and when the last token is `"--name"` (no `=`)
whose first matching entry requires an argument and `sp = 1`, the call returns
`'?'` (it does not read out of bounds), `sp` is 1 and `optind` equals the
vector length afterwards, and the next call of either scanner returns -1 and
changes nothing. -/
theorem missing_value_is_error (prog : List Int) (rest : List (List Int)) (optstring : List Int)
    (lo : Option (List option)) (li : Bool) :
    (∀ (s : State) (tok : List Int) (c : Int),
      (prog :: rest)[s.optind]? = some tok → (0 : Int) ∉ tok → tok[s.sp]? = some c →
      takesValue optstring c → c ≠ ch ':' → s.sp + 1 = tok.length →
      s.optind + 1 = (prog :: rest).length →
      (s.sp = 1 → tok.head? = some (ch '-') ∧ tok ≠ cstr "--") →
      ∃ s1, getopt (prog :: rest) optstring s = some (ch '?', s1) ∧
        s1 = { diagnosed { s with optopt := c, optind := s.optind + 1 }
                 (msg_requires_short prog c) with sp := 1 } ∧
        s1.sp = 1 ∧ s1.optind = (prog :: rest).length ∧
        getopt (prog :: rest) optstring s1 = some (-1, s1) ∧
        getopt_long (prog :: rest) optstring lo li s1 = some (-1, s1)) ∧
    (∀ (s : State) (os : List option) (r : List Int) (i : Nat) (e : option),
      (prog :: rest)[s.optind]? = some (ch '-' :: ch '-' :: r) → r ≠ [] → (0 : Int) ∉ r →
      ch '=' ∉ r → (∀ o ∈ os, (0 : Int) ∉ o.name) →
      os[i]? = some e → e.name = r → (∀ j o1, j < i → os[j]? = some o1 → o1.name ≠ r) →
      e.has_arg = required_argument → s.optind + 1 = (prog :: rest).length → s.sp = 1 →
      ∃ s1, getopt_long (prog :: rest) optstring (some os) li s = some (ch '?', s1) ∧
        s1 = { diagnosed (set_longindex li i s) (msg_requires_long prog e.name) with
                 optind := s.optind + 1 } ∧
        s1.sp = 1 ∧ s1.optind = (prog :: rest).length ∧
        getopt_long (prog :: rest) optstring lo li s1 = some (-1, s1) ∧
        getopt (prog :: rest) optstring s1 = some (-1, s1)) := by
  constructor
  · intro s tok c htok hnul hc hval hcolon hend hlast hfresh
    refine ⟨_, ?_, rfl, rfl, ?_, ?_, ?_⟩
    · rw [getopt_of_scan htok (charAt_of_getElem? hc) (getElem?_ne_zero hnul hc) hfresh]
      exact getopt_scan_missing htok hc hval hcolon hend hlast
    · simp [hlast]
    · exact getopt_at_end _ _ _ rfl (by simp [hlast])
    · exact getopt_long_at_end _ _ _ _ _ (by simp [hlast])
  · intro s os r i e htok hr hnul hreq hnames hi hname hfirst hreqd hlast hsp
    obtain ⟨x, t, hxt, hx⟩ := cons_of_ne_nil hr hnul
    have hfound : long_lookup (some os) r (name_len r) = some (some (i, e)) := by
      unfold long_lookup
      rw [find_match_iff (name_len_le _) os hnames 0 i e, take_name_len, name_part_plain r hreq]
      exact ⟨i, by omega, hi, hname, hfirst⟩
    refine ⟨_, ?_, rfl, ?_, ?_, ?_, ?_⟩
    · rw [hxt] at htok
      rw [getopt_long_of_long optstring (some os) li htok hx, ← hxt,
        getopt_long_scan_found li s hfound, strchr_plain r hreq,
        long_found_required_missing _ _ _ _ _ _ hreqd (by omega)]
    · simp [hsp]
    · simp [hlast]
    · exact getopt_long_at_end _ _ _ _ _ (by simp [hlast])
    · exact getopt_at_end _ _ _ (by simp [hsp]) (by simp [hlast])

/-- C6 on `prog -o` with `"o:"` and on `prog --name` with a required argument: one error, then
the end of the options. -/
theorem missing_value_is_error_witness :
    (∃ s1, getopt [cstr "prog", cstr "-o"] (cstr "o:") (State.initial (fun _ => 0) 0) =
        some (ch '?', s1) ∧
      s1 = { diagnosed { State.initial (fun _ => 0) 0 with optopt := ch 'o', optind := 2 }
               (msg_requires_short (cstr "prog") (ch 'o')) with sp := 1 } ∧
      s1.sp = 1 ∧ s1.optind = 2 ∧
      getopt [cstr "prog", cstr "-o"] (cstr "o:") s1 = some (-1, s1) ∧
      getopt_long [cstr "prog", cstr "-o"] (cstr "o:") none false s1 = some (-1, s1)) ∧
    (∃ s1, getopt_long [cstr "prog", cstr "--name"] (cstr "o:")
        (some [⟨cstr "name", required_argument, none, 5⟩]) false
        (State.initial (fun _ => 0) 0) = some (ch '?', s1) ∧
      s1 = { diagnosed (set_longindex false 0 (State.initial (fun _ => 0) 0))
               (msg_requires_long (cstr "prog") (cstr "name")) with optind := 2 } ∧
      s1.sp = 1 ∧ s1.optind = 2 ∧
      getopt_long [cstr "prog", cstr "--name"] (cstr "o:") none false s1 = some (-1, s1) ∧
      getopt [cstr "prog", cstr "--name"] (cstr "o:") s1 = some (-1, s1)) :=
  ⟨(missing_value_is_error (cstr "prog") [cstr "-o"] (cstr "o:") none false).1
      (State.initial (fun _ => 0) 0) (cstr "-o") (ch 'o') (by decide) (by decide) (by decide)
      (by decide) (by decide) (by decide) (by decide) (by decide),
   (missing_value_is_error (cstr "prog") [cstr "--name"] (cstr "o:") none false).2
      (State.initial (fun _ => 0) 0) [⟨cstr "name", required_argument, none, 5⟩] (cstr "name") 0
      ⟨cstr "name", required_argument, none, 5⟩ (by decide) (by decide) (by decide) (by decide)
      (by decide) rfl rfl (fun j _ hj => absurd hj (Nat.not_lt_zero j)) rfl (by decide) rfl⟩

/-- C8: for a token `"--" ++ r` at `optind` (`r` a non-empty C string) whose
name part equals no entry name of the table (of C-string names; the table may
be empty or the pointer null), `getopt_long` returns `'?'`, only writes the
diagnostic (when `opterr` is set) and advances `optind` by one: the flag
cells, the cell of `longindex`, `sp`, `optarg` and `optopt` are unchanged; the
next call does not depend on the offending token, and returns -1 when that
token was the last. -/
theorem getopt_long_unrecognized (prog : List Int) (rest : List (List Int))
    (optstring : List Int) (lo : Option (List option)) (li : Bool) (s : State) (r : List Int)
    (htok : (prog :: rest)[s.optind]? = some (ch '-' :: ch '-' :: r))
    (hr : r ≠ []) (hnul : (0 : Int) ∉ r)
    (hno : ∀ os, lo = some os →
      (∀ o ∈ os, (0 : Int) ∉ o.name) ∧ ∀ o ∈ os, o.name ≠ name_part r) :
    ∃ s1, getopt_long (prog :: rest) optstring lo li s = some (ch '?', s1) ∧
      s1 = { diagnosed s (msg_unrecognized prog r) with optind := s.optind + 1 } ∧
      s1.optind = s.optind + 1 ∧ s1.flags = s.flags ∧ s1.longindex = s.longindex ∧
      s1.sp = s.sp ∧ s1.optarg = s.optarg ∧ s1.optopt = s.optopt ∧
      (∀ t, 0 < s.optind →
        getopt_long ((prog :: rest).set s.optind t) optstring lo li s1 =
          getopt_long (prog :: rest) optstring lo li s1) ∧
      (s.optind + 1 = (prog :: rest).length →
        getopt_long (prog :: rest) optstring lo li s1 = some (-1, s1)) := by
  obtain ⟨x, t, hxt, hx⟩ := cons_of_ne_nil hr hnul
  refine ⟨_, ?_, rfl, rfl, by simp, by simp, by simp, by simp, by simp, ?_, ?_⟩
  · rw [hxt] at htok
    rw [getopt_long_of_long optstring lo li htok hx, ← hxt]
    exact getopt_long_scan_unrecognized lo li s r hno
  · intro t h0
    exact getopt_long_set_behind _ _ _ _ _ _ _ h0 (Nat.lt_succ_self _)
  · intro hlast
    exact getopt_long_at_end _ _ _ _ _ (by simp [hlast])

/-- C8 on `prog --bogus` with an empty table: one error, then the end of the options. -/
theorem getopt_long_unrecognized_witness :
    ∃ s1, getopt_long [cstr "prog", cstr "--bogus"] (cstr "a") (some []) true
        (State.initial (fun _ => 0) 0) = some (ch '?', s1) ∧
      s1 = { diagnosed (State.initial (fun _ => 0) 0)
               (msg_unrecognized (cstr "prog") (cstr "bogus")) with optind := 2 } ∧
      s1.optind = 2 ∧ s1.flags = (fun _ => 0) ∧ s1.longindex = 0 ∧
      s1.sp = 1 ∧ s1.optarg = none ∧ s1.optopt = ch '?' ∧
      (∀ t, 0 < 1 →
        getopt_long ([cstr "prog", cstr "--bogus"].set 1 t) (cstr "a") (some []) true s1 =
          getopt_long [cstr "prog", cstr "--bogus"] (cstr "a") (some []) true s1) ∧
      (1 + 1 = 2 → getopt_long [cstr "prog", cstr "--bogus"] (cstr "a") (some []) true s1 =
        some (-1, s1)) :=
  getopt_long_unrecognized (cstr "prog") [cstr "--bogus"] (cstr "a") (some []) true
    (State.initial (fun _ => 0) 0) (cstr "bogus") (by decide) (by decide) (by decide)
    (fun os h => by cases h; exact ⟨by decide, by decide⟩)

/-- C10: at the start of a token (`sp = 1`), when the token at `optind` is
exactly `"--"`, `getopt` and `getopt_long` return -1 and only advance
`optind` by one, whatever tokens come before and after it. -/
theorem terminator_consumed (pre post : List (List Int)) (optstring : List Int)
    (lo : Option (List option)) (li : Bool) (s : State)
    (hpre : pre.length = s.optind) (hsp : s.sp = 1) :
    getopt (pre ++ cstr "--" :: post) optstring s = some (-1, { s with optind := s.optind + 1 }) ∧
    getopt_long (pre ++ cstr "--" :: post) optstring lo li s =
      some (-1, { s with optind := s.optind + 1 }) := by
  have htok : (pre ++ cstr "--" :: post)[s.optind]? = some (cstr "--") := by
    rw [← hpre, List.getElem?_append_right (Nat.le_refl _)]; simp
  have hlt : s.optind < (pre ++ cstr "--" :: post).length := lt_length_of_getElem? htok
  have h0 : charAt (cstr "--") 0 = some (ch '-') := by decide
  have h1 : charAt (cstr "--") 1 = some (ch '-') := by decide
  have hd : ch '-' ≠ 0 := by decide
  have hs : strcmp (cstr "--") (cstr "--") = 0 := by decide
  constructor
  · unfold getopt
    simp only [hsp, if_true, ge_iff_le, Nat.not_le.mpr hlt, if_false, htok, Option.bind_eq_bind,
      Option.some_bind, h0, h1, ne_eq, not_true_eq_false, hd, hs]
  · unfold getopt_long
    simp only [getopt_long_sp, if_true, ge_iff_le, Nat.not_le.mpr hlt, if_false, htok,
      Option.bind_eq_bind, Option.some_bind, h0, ne_eq, not_true_eq_false, hs]

/-- C10 on `prog -- -x`: the first call returns -1 and `optind` designates `-x`. -/
theorem terminator_consumed_witness :
    getopt ([cstr "prog"] ++ cstr "--" :: [cstr "-x"]) (cstr "x") (State.initial (fun _ => 0) 0) =
      some (-1, { State.initial (fun _ => 0) 0 with optind := 2 }) ∧
    getopt_long ([cstr "prog"] ++ cstr "--" :: [cstr "-x"]) (cstr "x") none false
        (State.initial (fun _ => 0) 0) =
      some (-1, { State.initial (fun _ => 0) 0 with optind := 2 }) :=
  terminator_consumed [cstr "prog"] [cstr "-x"] (cstr "x") none false
    (State.initial (fun _ => 0) 0) rfl rfl

/-! ## Claims on both scanners -/

/-- C9 (amended): whenever `getopt` returns `'?'` - for an unknown character
or for a missing value, with diagnostics on or off - `optopt` is the character
at `sp` of the token at `optind`, the offending one, and so it is when
`getopt_long` returns `'?'` on a token that is not of the shape `--something`;
on a token of that shape `getopt_long` never writes `optopt`, and after its two
errors (no entry of that name, missing required argument) the offending token
is the one just before `optind`. -/
theorem error_char_after_error (prog : List Int) (rest : List (List Int)) (optstring : List Int)
    (lo : Option (List option)) (li : Bool) (s : State) :
    (∀ s1, getopt (prog :: rest) optstring s = some (ch '?', s1) →
      ∃ tok, (prog :: rest)[s.optind]? = some tok ∧ charAt tok s.sp = some s1.optopt) ∧
    (∀ tok s1, (prog :: rest)[s.optind]? = some tok → longShaped tok = false →
      getopt_long (prog :: rest) optstring lo li s = some (ch '?', s1) →
      charAt tok s.sp = some s1.optopt) ∧
    (∀ r, (prog :: rest)[s.optind]? = some (ch '-' :: ch '-' :: r) → r ≠ [] → (0 : Int) ∉ r →
      (∀ ret s1, getopt_long (prog :: rest) optstring lo li s = some (ret, s1) →
        s1.optopt = s.optopt) ∧
      ((∀ os, lo = some os →
          (∀ o ∈ os, (0 : Int) ∉ o.name) ∧ ∀ o ∈ os, o.name ≠ name_part r) →
        ∃ s1, getopt_long (prog :: rest) optstring lo li s = some (ch '?', s1) ∧
          (prog :: rest)[s1.optind - 1]? = some (ch '-' :: ch '-' :: r)) ∧
      (∀ (os : List option) (i : Nat) (e : option), lo = some os → ch '=' ∉ r → (∀ o ∈ os, (0 : Int) ∉ o.name) →
        os[i]? = some e → e.name = r → (∀ j o1, j < i → os[j]? = some o1 → o1.name ≠ r) →
        e.has_arg = required_argument → s.optind + 1 = (prog :: rest).length →
        ∃ s1, getopt_long (prog :: rest) optstring lo li s = some (ch '?', s1) ∧
          (prog :: rest)[s1.optind - 1]? = some (ch '-' :: ch '-' :: r))) := by
  refine ⟨fun s1 h => getopt_result_optopt h (by decide), ?_, ?_⟩
  · intro tok s1 htok hshape h
    obtain ⟨tok2, h2, h3⟩ := getopt_result_optopt (getopt_long_delegates htok hshape h (by decide))
      (by decide)
    rw [htok] at h2
    cases h2
    exact h3
  · intro r htok hr hnul
    obtain ⟨x, t, hxt, hx⟩ := cons_of_ne_nil hr hnul
    have hcall : getopt_long (prog :: rest) optstring lo li s =
        getopt_long_scan (prog :: rest) lo li (ch '-' :: ch '-' :: r) s := by
      rw [hxt] at htok ⊢
      exact getopt_long_of_long optstring lo li htok hx
    refine ⟨?_, ?_, ?_⟩
    · intro ret s1 h
      rw [hcall] at h
      exact getopt_long_scan_optopt h
    · intro hno
      refine ⟨{ diagnosed s (msg_unrecognized prog r) with optind := s.optind + 1 }, ?_, ?_⟩
      · rw [hcall]
        exact getopt_long_scan_unrecognized lo li s r hno
      · simpa using htok
    · intro os i e hlo hreq hnames hi hname hfirst hreqd hlast
      subst hlo
      have hfound : long_lookup (some os) r (name_len r) = some (some (i, e)) := by
        unfold long_lookup
        rw [find_match_iff (name_len_le _) os hnames 0 i e, take_name_len, name_part_plain r hreq]
        exact ⟨i, by omega, hi, hname, hfirst⟩
      refine ⟨{ diagnosed (set_longindex li i s) (msg_requires_long prog e.name) with
        optind := s.optind + 1 }, ?_, ?_⟩
      · rw [hcall, getopt_long_scan_found li s hfound, strchr_plain r hreq,
          long_found_required_missing _ _ _ _ _ _ hreqd (by omega)]
      · simpa using htok

/-- C9 as stated fails for the long-option errors: after the unknown `x` of
`"-x"`, the errors for `"--bogus"`, for `"--other"` and for `"--name"` without
its required argument all leave `optopt = 'x'`, the character of the earlier
call, which tells nothing of the offending name. -/
theorem error_char_after_error_counterexample :
    (run_calls (getopt_long [cstr "prog", cstr "-x", cstr "--bogus"] (cstr "a") (some []) false) 2
        (State.initial (fun _ => 0) 0)).map (fun p => (p.1, p.2.optopt))
      = some ([ch '?', ch '?'], ch 'x') ∧
    (run_calls (getopt_long [cstr "prog", cstr "-x", cstr "--other"] (cstr "a") (some []) false) 2
        (State.initial (fun _ => 0) 0)).map (fun p => (p.1, p.2.optopt))
      = some ([ch '?', ch '?'], ch 'x') ∧
    (run_calls (getopt_long [cstr "prog", cstr "-x", cstr "--name"] (cstr "a")
        (some [⟨cstr "name", required_argument, none, 5⟩]) false) 2
        (State.initial (fun _ => 0) 0)).map (fun p => (p.1, p.2.optopt))
      = some ([ch '?', ch '?'], ch 'x') := by
  refine ⟨by decide, by decide, by decide⟩

/-- C9 on `prog -x` with `"a"`: the error carries `x`. -/
theorem error_char_after_error_witness :
    getopt [cstr "prog", cstr "-x"] (cstr "a") (State.initial (fun _ => 0) 0) =
      some (ch '?', { diagnosed { State.initial (fun _ => 0) 0 with optopt := ch 'x' }
                        (msg_illegal (cstr "prog") (ch 'x')) with sp := 1, optind := 2 }) ∧
    ∃ tok, [cstr "prog", cstr "-x"][1]? = some tok ∧ charAt tok 1 = some (ch 'x') :=
  ⟨rfl, (error_char_after_error (cstr "prog") [cstr "-x"] (cstr "a") none false
    (State.initial (fun _ => 0) 0)).1 _ rfl⟩

/-! ## More claims on the long-option scanner -/

/-- C13: for a token `"--" ++ r` whose first entry named as the part of `r`
before `=` is `e`: when `e` takes an optional argument, `optarg` is the text
after the first `=` of `r` when there is one (the empty text for `--name=`) and
`NULL` otherwise; when `e` takes neither a required nor an optional argument,
`optarg` is `NULL` whatever follows the name; in both cases the call returns
the result of the entry (its value, or 0 with the value stored through
`flag`), and `optind` advances by one, whatever token follows. -/
theorem getopt_long_optional_none (prog : List Int) (rest : List (List Int))
    (optstring : List Int) (os : List option) (li : Bool) (s : State) (r : List Int)
    (i : Nat) (e : option)
    (htok : (prog :: rest)[s.optind]? = some (ch '-' :: ch '-' :: r))
    (hr : r ≠ []) (hnul : (0 : Int) ∉ r) (hnames : ∀ o ∈ os, (0 : Int) ∉ o.name)
    (hi : os[i]? = some e) (hname : e.name = name_part r)
    (hfirst : ∀ j o1, j < i → os[j]? = some o1 → o1.name ≠ name_part r) :
    (e.has_arg = optional_argument →
      getopt_long (prog :: rest) optstring (some os) li s =
        some (long_result e,
          { set_longindex li i s with
            optarg := inline_value r, optind := s.optind + 1,
            flags := flags_after e s.flags })) ∧
    (e.has_arg ≠ required_argument → e.has_arg ≠ optional_argument →
      getopt_long (prog :: rest) optstring (some os) li s =
        some (long_result e,
          { set_longindex li i s with
            optarg := none, optind := s.optind + 1,
            flags := flags_after e s.flags })) := by
  rw [getopt_long_found optstring li htok hr hnul hnames hi hname hfirst]
  constructor
  · intro hopt
    rw [long_found_optional _ _ _ _ _ _ hopt, long_return_eq, strchr_eq_inline]
    simp
  · intro h1 h2
    rw [long_found_none _ _ _ _ _ _ h1 h2, long_return_eq]
    simp

/-- C13 on `--color=`, `--color` (optional argument) and `--help=me` (no
argument), each followed by a token `x` that is not consumed. -/
theorem getopt_long_optional_none_witness :
    (getopt_long [cstr "prog", cstr "--color=", cstr "x"] (cstr "a")
        (some [⟨cstr "color", optional_argument, none, 7⟩]) false (State.initial (fun _ => 0) 0) =
      some (7, { State.initial (fun _ => 0) 0 with optarg := some [], optind := 2 })) ∧
    (getopt_long [cstr "prog", cstr "--color", cstr "x"] (cstr "a")
        (some [⟨cstr "color", optional_argument, none, 7⟩]) false (State.initial (fun _ => 0) 0) =
      some (7, { State.initial (fun _ => 0) 0 with optarg := none, optind := 2 })) ∧
    (getopt_long [cstr "prog", cstr "--help=me", cstr "x"] (cstr "a")
        (some [⟨cstr "help", no_argument, none, 8⟩]) false (State.initial (fun _ => 0) 0) =
      some (8, { State.initial (fun _ => 0) 0 with optarg := none, optind := 2 })) :=
  ⟨(getopt_long_optional_none (cstr "prog") [cstr "--color=", cstr "x"] (cstr "a")
      [⟨cstr "color", optional_argument, none, 7⟩] false (State.initial (fun _ => 0) 0)
      (cstr "color=") 0 ⟨cstr "color", optional_argument, none, 7⟩ rfl (by decide) (by decide)
      (by decide) rfl (by decide) (fun j _ hj => absurd hj (Nat.not_lt_zero j))).1 rfl,
   (getopt_long_optional_none (cstr "prog") [cstr "--color", cstr "x"] (cstr "a")
      [⟨cstr "color", optional_argument, none, 7⟩] false (State.initial (fun _ => 0) 0)
      (cstr "color") 0 ⟨cstr "color", optional_argument, none, 7⟩ rfl (by decide) (by decide)
      (by decide) rfl (by decide) (fun j _ hj => absurd hj (Nat.not_lt_zero j))).1 rfl,
   (getopt_long_optional_none (cstr "prog") [cstr "--help=me", cstr "x"] (cstr "a")
      [⟨cstr "help", no_argument, none, 8⟩] false (State.initial (fun _ => 0) 0)
      (cstr "help=me") 0 ⟨cstr "help", no_argument, none, 8⟩ rfl (by decide) (by decide)
      (by decide) rfl (by decide) (fun j _ hj => absurd hj (Nat.not_lt_zero j))).2
      (by decide) (by decide)⟩


/-- C14 (amended): for a token `"--" ++ r` whose first entry named as the
part of `r` before `=` is `e`, `getopt_long` returns. When the required
argument of `e` is missing (no `=` in `r` and no following token) the result is
`'?'` and no flag cell is written. Otherwise: when `e` has a flag target, the
result is 0, the cell holds the value of `e` and every other cell is unchanged;
when `e` has no flag target, the result is the value of `e` and no cell is
written. -/
theorem getopt_long_flag (prog : List Int) (rest : List (List Int))
    (optstring : List Int) (os : List option) (li : Bool) (s : State) (r : List Int)
    (i : Nat) (e : option)
    (htok : (prog :: rest)[s.optind]? = some (ch '-' :: ch '-' :: r))
    (hr : r ≠ []) (hnul : (0 : Int) ∉ r) (hnames : ∀ o ∈ os, (0 : Int) ∉ o.name)
    (hi : os[i]? = some e) (hname : e.name = name_part r)
    (hfirst : ∀ j o1, j < i → os[j]? = some o1 → o1.name ≠ name_part r) :
    ∃ ret s1, getopt_long (prog :: rest) optstring (some os) li s = some (ret, s1) ∧
      ((e.has_arg = required_argument ∧ ch '=' ∉ r ∧ (prog :: rest).length ≤ s.optind + 1) →
        ret = ch '?' ∧ s1.flags = s.flags) ∧
      (¬ (e.has_arg = required_argument ∧ ch '=' ∉ r ∧ (prog :: rest).length ≤ s.optind + 1) →
        (∀ a, e.flag = some a →
          ret = 0 ∧ s1.flags a = e.val ∧ ∀ b, b ≠ a → s1.flags b = s.flags b) ∧
        (e.flag = none → ret = e.val ∧ s1.flags = s.flags)) := by
  have hlt : s.optind < (prog :: rest).length := lt_length_of_getElem? htok
  rw [getopt_long_found optstring li htok hr hnul hnames hi hname hfirst]
  obtain ⟨ret, s1, h1, _, _, _, _, h6⟩ :=
    long_found_result prog rest r (strchr r (ch '=')) li i e s hlt
  have heq : strchr r (ch '=') = none ↔ ch '=' ∉ r := by
    rw [strchr_eq]
    by_cases hm : ch '=' ∈ r <;> simp [hm]
  refine ⟨ret, s1, h1, ?_, ?_⟩
  · rintro ⟨m1, m2, m3⟩
    rcases h6 with ⟨_, _, _, k4, k5⟩ | ⟨k1, _, _⟩
    · exact ⟨k4, k5⟩
    · exact absurd ⟨m1, heq.mpr m2, m3⟩ k1
  · intro hn
    rcases h6 with ⟨k1, k2, k3, _, _⟩ | ⟨_, k2, k3⟩
    · exact absurd ⟨k1, heq.mp k2, k3⟩ hn
    · constructor
      · intro a ha
        rw [k2, k3]
        unfold long_result flags_after
        rw [ha]
        refine ⟨rfl, by simp, ?_⟩
        intro b hb
        simp [hb]
      · intro ha
        rw [k2, k3]
        unfold long_result flags_after
        rw [ha]
        exact ⟨rfl, rfl⟩

/-- C14 as stated fails when two entries share a flag cell: with `verbose`
(value 1) and `brief` (value 0) both pointing to cell 0, `--verbose` returns 0
and changes cell 0, the flag target of the other entry `brief`, from 0 to 1. -/
theorem getopt_long_flag_counterexample :
    (⟨cstr "brief", no_argument, some 0, 0⟩ : option).flag = some 0 ∧
    (State.initial (fun _ => 0) 0).flags 0 = 0 ∧
    (getopt_long [cstr "prog", cstr "--verbose"] (cstr "a")
        (some [⟨cstr "verbose", no_argument, some 0, 1⟩, ⟨cstr "brief", no_argument, some 0, 0⟩])
        false (State.initial (fun _ => 0) 0)).map (fun p => (p.1, p.2.flags 0))
      = some (0, 1) := by
  refine ⟨rfl, rfl, by decide⟩

/-- C14 on `--verbose` with flag cell 3: the cell is set to 1, the others keep
their 9. -/
theorem getopt_long_flag_witness :
    ∃ ret s1, getopt_long [cstr "prog", cstr "--verbose"] (cstr "a")
        (some [⟨cstr "verbose", no_argument, some 3, 1⟩, ⟨cstr "brief", no_argument, some 4, 0⟩])
        false (State.initial (fun _ => 9) 0) = some (ret, s1) ∧
      ret = 0 ∧ s1.flags 3 = 1 ∧ ∀ b, b ≠ 3 → s1.flags b = 9 := by
  obtain ⟨ret, s1, h1, _, h3⟩ := getopt_long_flag (cstr "prog") [cstr "--verbose"] (cstr "a")
    [⟨cstr "verbose", no_argument, some 3, 1⟩, ⟨cstr "brief", no_argument, some 4, 0⟩]
    false (State.initial (fun _ => 9) 0) (cstr "verbose") 0
    ⟨cstr "verbose", no_argument, some 3, 1⟩ rfl (by decide) (by decide) (by decide) rfl
    (by decide) (fun j _ hj => absurd hj (Nat.not_lt_zero j))
  exact ⟨ret, s1, h1, (h3 (by decide)).1 3 rfl⟩


/-! ## Claims on the end of the options -/

/-- C12: at the start of a token (`sp = 1`), when `optind` is past the end of
the vector, or the token at `optind` does not begin with `-` (the empty token
included), or is exactly `-`, both `getopt` and `getopt_long` return -1 and
the state after the call is the state before it: `optind`, `sp`, `optarg`,
`optopt`, every flag cell and the cell of `longindex` are unchanged. -/
theorem end_of_options_frame (argv : List (List Int)) (optstring : List Int)
    (lo : Option (List option)) (li : Bool) (s : State) (hsp : s.sp = 1)
    (h : argv.length ≤ s.optind ∨
      ∃ tok, argv[s.optind]? = some tok ∧ (tok.head? ≠ some (ch '-') ∨ tok = [ch '-'])) :
    getopt argv optstring s = some (-1, s) ∧
    getopt_long argv optstring lo li s = some (-1, s) := by
  constructor
  · exact getopt_end_frame argv optstring s hsp h
  · exact getopt_long_end_frame argv optstring lo li s hsp h

/-- C12 on a positional token, on `-` alone and on an exhausted vector. -/
theorem end_of_options_frame_witness :
    (getopt [cstr "prog", cstr "file", cstr "-x"] (cstr "x") (State.initial (fun _ => 0) 0) =
        some (-1, State.initial (fun _ => 0) 0) ∧
      getopt_long [cstr "prog", cstr "file", cstr "-x"] (cstr "x") none true
        (State.initial (fun _ => 0) 0) = some (-1, State.initial (fun _ => 0) 0)) ∧
    (getopt [cstr "prog", cstr "-"] (cstr "x") (State.initial (fun _ => 0) 0) =
        some (-1, State.initial (fun _ => 0) 0) ∧
      getopt_long [cstr "prog", cstr "-"] (cstr "x") none true
        (State.initial (fun _ => 0) 0) = some (-1, State.initial (fun _ => 0) 0)) ∧
    (getopt [cstr "prog"] (cstr "x") (State.initial (fun _ => 0) 0) =
        some (-1, State.initial (fun _ => 0) 0) ∧
      getopt_long [cstr "prog"] (cstr "x") none true
        (State.initial (fun _ => 0) 0) = some (-1, State.initial (fun _ => 0) 0)) :=
  ⟨end_of_options_frame [cstr "prog", cstr "file", cstr "-x"] (cstr "x") none true
      (State.initial (fun _ => 0) 0) rfl (Or.inr ⟨cstr "file", rfl, Or.inl (by decide)⟩),
   end_of_options_frame [cstr "prog", cstr "-"] (cstr "x") none true
      (State.initial (fun _ => 0) 0) rfl (Or.inr ⟨cstr "-", rfl, Or.inr rfl⟩),
   end_of_options_frame [cstr "prog"] (cstr "x") none true
      (State.initial (fun _ => 0) 0) rfl (Or.inl (by decide))⟩

/-- C11 (amended): when the end of the options is reached at the start of a
token because the vector is exhausted or the token at `optind` is not an option
(it does not begin with `-`, or is `-` alone), every sequence of later calls,
of `getopt` and `getopt_long` in any order, returns -1 each time and leaves the
state unchanged. -/
theorem end_state_idempotent (argv : List (List Int)) (optstring : List Int)
    (lo : Option (List option)) (li : Bool) (s : State) (hsp : s.sp = 1)
    (h : argv.length ≤ s.optind ∨
      ∃ tok, argv[s.optind]? = some tok ∧ (tok.head? ≠ some (ch '-') ∨ tok = [ch '-']))
    (calls : List Bool) :
    session argv optstring lo li calls s = some (List.replicate calls.length (-1), s) := by
  induction calls with
  | nil => rfl
  | cons b bs ih =>
    have hcall : scan_call argv optstring lo li b s = some (-1, s) := by
      unfold scan_call
      cases b with
      | true => simpa using getopt_long_end_frame argv optstring lo li s hsp h
      | false => simpa using getopt_end_frame argv optstring s hsp h
    simp only [session, hcall, ih, List.length_cons, List.replicate_succ]

/-- C11 as stated fails at the terminator: on `prog -- -x` with `"x"` the
first call returns -1 and the second call, of `getopt` as of `getopt_long`,
returns `x` and moves the cursor on. -/
theorem end_state_idempotent_counterexample :
    (session [cstr "prog", cstr "--", cstr "-x"] (cstr "x") none false [false, false]
        (State.initial (fun _ => 0) 0)).map (fun p => (p.1, p.2.optind, p.2.optopt))
      = some ([-1, ch 'x'], 3, ch 'x') ∧
    (session [cstr "prog", cstr "--", cstr "-x"] (cstr "x") none false [true, true]
        (State.initial (fun _ => 0) 0)).map (fun p => (p.1, p.2.optind, p.2.optopt))
      = some ([-1, ch 'x'], 3, ch 'x') := by
  refine ⟨by decide, by decide⟩

/-- C11 on `prog file -x`: three calls, all -1, nothing changed. -/
theorem end_state_idempotent_witness :
    session [cstr "prog", cstr "file", cstr "-x"] (cstr "x") none false [false, true, false]
        (State.initial (fun _ => 0) 0) =
      some (List.replicate [false, true, false].length (-1), State.initial (fun _ => 0) 0) :=
  end_state_idempotent [cstr "prog", cstr "file", cstr "-x"] (cstr "x") none false
    (State.initial (fun _ => 0) 0) rfl (Or.inr ⟨cstr "file", rfl, Or.inl (by decide)⟩)
    [false, true, false]

/-! ## Claims on sessions -/

/-- C15: whatever a call of `getopt` or `getopt_long` returns, in any state,
`optind` has not decreased, is at most the larger of its old value and the
vector length, and stays within the vector length when it was; hence after
every sequence of calls of the two scanners from `optind = 1`, `optind` is at
least 1, at most the vector length plus one, and at most the vector length
when the vector is not empty. -/
theorem optind_bounds (argv : List (List Int)) (optstring : List Int)
    (lo : Option (List option)) (li : Bool) :
    (∀ (b : Bool) (s s1 : State) (r : Int),
      scan_call argv optstring lo li b s = some (r, s1) →
      s.optind ≤ s1.optind ∧ s1.optind ≤ max s.optind argv.length ∧
      (s.optind ≤ argv.length → s1.optind ≤ argv.length)) ∧
    (∀ (calls : List Bool) (s s1 : State) (rs : List Int), s.optind = 1 →
      session argv optstring lo li calls s = some (rs, s1) →
      1 ≤ s1.optind ∧ s1.optind ≤ argv.length + 1 ∧
      (1 ≤ argv.length → s1.optind ≤ argv.length)) := by
  constructor
  · intro b s s1 r h
    obtain ⟨m1, m2, _⟩ := scan_call_moves h
    refine ⟨m1, m2, fun hle => ?_⟩
    rw [Nat.max_eq_right hle] at m2
    exact m2
  · intro calls s s1 rs h1 h
    obtain ⟨n1, n2⟩ := session_optind calls h
    rw [h1] at n1 n2
    refine ⟨n1, ?_, fun hle => ?_⟩
    · rcases Nat.le_total 1 argv.length with hle | hle
      · rw [Nat.max_eq_right hle] at n2; omega
      · rw [Nat.max_eq_left hle] at n2; omega
    · rw [Nat.max_eq_right hle] at n2
      exact n2

/-- C15 on `prog -o v` with `"o:"`: after the option and the end of the
options `optind` is 3, the vector length. -/
theorem optind_bounds_witness :
    1 ≤ (3 : Nat) ∧ 3 ≤ [cstr "prog", cstr "-o", cstr "v"].length + 1 ∧
      (1 ≤ [cstr "prog", cstr "-o", cstr "v"].length →
        3 ≤ [cstr "prog", cstr "-o", cstr "v"].length) :=
  (optind_bounds [cstr "prog", cstr "-o", cstr "v"] (cstr "o:") none false).2
    [true, false] (State.initial (fun _ => 0) 0)
    { State.initial (fun _ => 0) 0 with optopt := ch 'o', optarg := some (cstr "v"), optind := 3 }
    [ch 'o', -1] rfl rfl

/-- C17: whatever a call of `getopt` or `getopt_long` returns other than -1,
in any state, the pair (`optind`, `sp`) has strictly increased in
lexicographic order; and on every vector of C strings, from the cursor
`optind = 1`, `sp = 1`, the loop that calls `getopt` until it returns -1, and
the one that calls `getopt_long`, make `k` calls that return something else
and then a call that returns -1, with `k` at most the number of characters of
the tokens after the program name (so `k + 1` is at most the number of
characters of all tokens when the program name is not empty). -/
theorem forward_progress (argv : List (List Int)) (optstring : List Int)
    (lo : Option (List option)) (li : Bool) :
    (∀ (b : Bool) (s s1 : State) (r : Int),
      scan_call argv optstring lo li b s = some (r, s1) → r ≠ -1 →
      s.optind < s1.optind ∨ (s1.optind = s.optind ∧ s.sp < s1.sp)) ∧
    (∀ s : State, wellFormed argv → s.optind = 1 → s.sp = 1 →
      (∃ k rs s1, k ≤ chars (argv.drop 1) ∧
        run_calls (getopt argv optstring) k s = some (rs, s1) ∧ (∀ r ∈ rs, r ≠ -1) ∧
        ∃ s2, getopt argv optstring s1 = some (-1, s2)) ∧
      (∃ k rs s1, k ≤ chars (argv.drop 1) ∧
        run_calls (getopt_long argv optstring lo li) k s = some (rs, s1) ∧
        (∀ r ∈ rs, r ≠ -1) ∧
        ∃ s2, getopt_long argv optstring lo li s1 = some (-1, s2))) ∧
    chars (argv.drop 1) ≤ chars argv ∧
    (∀ prog rest, argv = prog :: rest → prog ≠ [] → chars (argv.drop 1) + 1 ≤ chars argv) := by
  refine ⟨fun b s s1 r h hr => (scan_call_moves h).2.2 hr, ?_, chars_drop_mono argv (Nat.zero_le 1),
    ?_⟩
  · intro s hwf hind hsp
    have hrem : remaining argv s = chars (argv.drop 1) := by
      rw [remaining_eq, hind, hsp]; rfl
    constructor
    · obtain ⟨k, rs, s1, k1, k2⟩ := loop_terminates (getopt argv optstring) (cursorOk argv)
        (remaining argv) (fun s hs => getopt_total optstring hwf hs)
        (fun s r s1 hs h => getopt_preserves hs h)
        (fun s r s1 hs h hr => getopt_decreases hs h hr) (remaining argv s) s (Or.inl hsp)
        (Nat.le_refl _)
      exact ⟨k, rs, s1, hrem ▸ k1, k2⟩
    · obtain ⟨k, rs, s1, k1, k2⟩ := loop_terminates (getopt_long argv optstring lo li)
        (cursorOkLong argv) (remaining argv)
        (fun s hs => getopt_long_total optstring lo li hwf hs)
        (fun s r s1 hs h => getopt_long_preserves hs h)
        (fun s r s1 hs h hr => getopt_long_decreases hs h hr) (remaining argv s) s (Or.inl hsp)
        (Nat.le_refl _)
      exact ⟨k, rs, s1, hrem ▸ k1, k2⟩
  · intro prog rest h hp
    subst h
    have : 1 ≤ prog.length := List.length_pos.mpr hp
    simp [chars]
    omega

/-- C17 on `prog -ab --x y` with `"a"`: both loops end within the 7
characters of `-ab`, `--x`, `y`. -/
theorem forward_progress_witness :
    (∃ k rs s1, k ≤ chars ([cstr "prog", cstr "-ab", cstr "--x", cstr "y"].drop 1) ∧
      run_calls (getopt [cstr "prog", cstr "-ab", cstr "--x", cstr "y"] (cstr "a")) k
        (State.initial (fun _ => 0) 0) = some (rs, s1) ∧ (∀ r ∈ rs, r ≠ -1) ∧
      ∃ s2, getopt [cstr "prog", cstr "-ab", cstr "--x", cstr "y"] (cstr "a") s1 =
        some (-1, s2)) ∧
    (∃ k rs s1, k ≤ chars ([cstr "prog", cstr "-ab", cstr "--x", cstr "y"].drop 1) ∧
      run_calls (getopt_long [cstr "prog", cstr "-ab", cstr "--x", cstr "y"] (cstr "a") none
        false) k (State.initial (fun _ => 0) 0) = some (rs, s1) ∧ (∀ r ∈ rs, r ≠ -1) ∧
      ∃ s2, getopt_long [cstr "prog", cstr "-ab", cstr "--x", cstr "y"] (cstr "a") none false
        s1 = some (-1, s2)) :=
  (forward_progress [cstr "prog", cstr "-ab", cstr "--x", cstr "y"] (cstr "a") none false).2.1
    (State.initial (fun _ => 0) 0) (by decide) rfl rfl

/-- C18: on a vector of C strings, in every state reached by calls of
`getopt_long` alone from the start of a token (`sp = 1`, as in the initial
cursor), if the token at `optind` is not of the shape `--something` then
`getopt_long` returns exactly what `getopt` returns from that state, result and
state alike, that call does return, and it writes no flag cell and no
`longindex` cell; and in the middle of a cluster (`sp` not 1) the token is not
of that shape and the call is the character lookup of `getopt`: none of the
three checks of `getopt_long` returns there. -/
theorem long_delegates_to_short (argv : List (List Int)) (optstring : List Int)
    (lo : Option (List option)) (li : Bool) (s0 : State)
    (hwf : wellFormed argv) (hsp : s0.sp = 1)
    (n : Nat) (rs : List Int) (s : State)
    (hrun : run_calls (getopt_long argv optstring lo li) n s0 = some (rs, s)) :
    (∀ tok, argv[s.optind]? = some tok → longShaped tok = false →
      getopt_long argv optstring lo li s = getopt argv optstring s ∧
      ∃ r s1, getopt argv optstring s = some (r, s1) ∧
        s1.flags = s.flags ∧ s1.longindex = s.longindex) ∧
    (s.sp ≠ 1 →
      ∃ tok, argv[s.optind]? = some tok ∧ longShaped tok = false ∧
        getopt_long argv optstring lo li s = getopt_scan argv optstring s) := by
  have hok : cursorOkLong argv s :=
    run_calls_inv (getopt_long argv optstring lo li) (cursorOkLong argv)
      (fun s r s1 hs h => getopt_long_preserves hs h) n s0 rs s (Or.inl hsp) hrun
  have hmid : ∀ tok, argv[s.optind]? = some tok → s.sp ≠ 1 →
      tok.head? = some (ch '-') ∧ tok ≠ cstr "--" := by
    intro tok htok hne
    rcases hok with h | ⟨tok2, h1, h2, _, h4, h5⟩
    · exact absurd h hne
    · rw [htok] at h1
      cases h1
      refine ⟨h2, ?_⟩
      intro e
      rw [e] at h5
      simp [cstr] at h5
      omega
  constructor
  · intro tok htok hshape
    refine ⟨getopt_long_eq_getopt optstring lo li htok hshape (hmid tok htok), ?_⟩
    obtain ⟨r, s1, h1⟩ := getopt_total optstring hwf (cursorOk_of_long hok)
    obtain ⟨g1, g2, _⟩ := getopt_result h1
    exact ⟨r, s1, h1, g1, g2⟩
  · intro hne
    rcases hok with h | ⟨tok, h1, h2, h3, h4, h5⟩
    · exact absurd h hne
    · refine ⟨tok, h1, h3, ?_⟩
      rw [getopt_long_eq_getopt optstring lo li h1 h3 (hmid tok h1)]
      unfold getopt
      rw [if_neg hne]

/-- C18 on `prog -ab` after the first letter: in the middle of the cluster
`getopt_long` is `getopt`. -/
theorem long_delegates_to_short_witness :
    getopt_long [cstr "prog", cstr "-ab"] (cstr "ab") none false
        { State.initial (fun _ => 0) 0 with optopt := ch 'a', sp := 2 } =
      getopt [cstr "prog", cstr "-ab"] (cstr "ab")
        { State.initial (fun _ => 0) 0 with optopt := ch 'a', sp := 2 } ∧
    ∃ r s1, getopt [cstr "prog", cstr "-ab"] (cstr "ab")
        { State.initial (fun _ => 0) 0 with optopt := ch 'a', sp := 2 } = some (r, s1) ∧
      s1.flags = (fun _ => 0) ∧ s1.longindex = 0 :=
  (long_delegates_to_short [cstr "prog", cstr "-ab"] (cstr "ab") none false
    (State.initial (fun _ => 0) 0) (by decide) rfl 1 [ch 'a']
    { State.initial (fun _ => 0) 0 with optopt := ch 'a', sp := 2 } rfl).1
    (cstr "-ab") rfl rfl

/-- C20: on a vector of C strings, from the start of a token (`sp = 1`, as in
the initial cursor), in a session that calls only `getopt`, and in one that
calls only `getopt_long`, no call ever reads out of bounds: each of the first
`n` calls returns, for every `n`, the cursor they leave is at the start of a
token or on an existing character of the existing token at `optind`, and the
next call returns too. -/
theorem index_safety (argv : List (List Int)) (optstring : List Int)
    (lo : Option (List option)) (li : Bool) (s : State)
    (hwf : wellFormed argv) (hsp : s.sp = 1) (n : Nat) :
    (∃ rs s1, run_calls (getopt argv optstring) n s = some (rs, s1) ∧ cursorOk argv s1 ∧
      ∃ r s2, getopt argv optstring s1 = some (r, s2)) ∧
    (∃ rs s1, run_calls (getopt_long argv optstring lo li) n s = some (rs, s1) ∧
      cursorOkLong argv s1 ∧ ∃ r s2, getopt_long argv optstring lo li s1 = some (r, s2)) := by
  constructor
  · obtain ⟨rs, s1, h1, h2⟩ := run_calls_total (getopt argv optstring) (cursorOk argv)
      (fun s hs => getopt_total optstring hwf hs)
      (fun s r s1 hs h => getopt_preserves hs h) n s (Or.inl hsp)
    exact ⟨rs, s1, h1, h2, getopt_total optstring hwf h2⟩
  · obtain ⟨rs, s1, h1, h2⟩ := run_calls_total (getopt_long argv optstring lo li)
      (cursorOkLong argv) (fun s hs => getopt_long_total optstring lo li hwf hs)
      (fun s r s1 hs h => getopt_long_preserves hs h) n s (Or.inl hsp)
    exact ⟨rs, s1, h1, h2, getopt_long_total optstring lo li hwf h2⟩

/-- C20 on `prog -a -o` with `"ao:"`: five calls of either scanner and a
sixth all return. -/
theorem index_safety_witness :
    (∃ rs s1, run_calls (getopt [cstr "prog", cstr "-a", cstr "-o"] (cstr "ao:")) 5
        (State.initial (fun _ => 0) 0) = some (rs, s1) ∧
      cursorOk [cstr "prog", cstr "-a", cstr "-o"] s1 ∧
      ∃ r s2, getopt [cstr "prog", cstr "-a", cstr "-o"] (cstr "ao:") s1 = some (r, s2)) ∧
    (∃ rs s1, run_calls (getopt_long [cstr "prog", cstr "-a", cstr "-o"] (cstr "ao:") none true) 5
        (State.initial (fun _ => 0) 0) = some (rs, s1) ∧
      cursorOkLong [cstr "prog", cstr "-a", cstr "-o"] s1 ∧
      ∃ r s2, getopt_long [cstr "prog", cstr "-a", cstr "-o"] (cstr "ao:") none true s1 =
        some (r, s2)) :=
  index_safety [cstr "prog", cstr "-a", cstr "-o"] (cstr "ao:") none true
    (State.initial (fun _ => 0) 0) (by decide) rfl 5

/-- C16 fails when the two scanners are mixed: on `prog --ab x` with `"a"`,
`getopt` reports the `-` of `--ab` as unknown and leaves `sp = 2`; then
`getopt_long`, which tests a `sp` of its own that is always 1, takes `--ab`
for a long option and advances `optind` to the token `x` while `sp` is still
2, a position `x` does not have; the next call of `getopt` reads out of bounds.
So the invariant `cursorOk` does not hold after every sequence of calls. -/
theorem shared_cursor_broken :
    (session [cstr "prog", cstr "--ab", cstr "x"] (cstr "a") (some []) false [false, true]
        (State.initial (fun _ => 0) 0)).map (fun p => (p.1, p.2.optind, p.2.sp))
      = some ([ch '?', ch '?'], 2, 2) ∧
    [cstr "prog", cstr "--ab", cstr "x"][2]? = some (cstr "x") ∧
    (session [cstr "prog", cstr "--ab", cstr "x"] (cstr "a") (some []) false [false, true, false]
        (State.initial (fun _ => 0) 0)).isNone = true ∧
    ¬ ∀ calls rs s,
      session [cstr "prog", cstr "--ab", cstr "x"] (cstr "a") (some []) false calls
        (State.initial (fun _ => 0) 0) = some (rs, s) →
      cursorOk [cstr "prog", cstr "--ab", cstr "x"] s := by
  refine ⟨by decide, by decide, by decide, ?_⟩
  intro h
  have hs : session [cstr "prog", cstr "--ab", cstr "x"] (cstr "a") (some []) false [false, true]
      (State.initial (fun _ => 0) 0) =
      some ([ch '?', ch '?'],
        { optarg := none, optind := 2, opterr := 1, optopt := ch '-', sp := 2,
          flags := fun _ => 0, longindex := 0,
          stderr := [msg_illegal (cstr "prog") (ch '-'),
            msg_unrecognized (cstr "prog") (cstr "ab")] }) := rfl
  rcases h _ _ _ hs with h1 | ⟨tok, h1, _, _, h5⟩
  · exact absurd h1 (by decide)
  · have h6 : tok = cstr "x" := by
      have : [cstr "prog", cstr "--ab", cstr "x"][2]? = some tok := h1
      simpa using this.symm
    rw [h6] at h5
    exact absurd h5 (by decide)

/-- C19 fails: `getopt_reset` never changes `sp`. After the first letter of
`-ab` (`sp = 2`) a reset gives `optind = 1`, `optarg = NULL` but `sp = 2`, so
that scanning the new vector `prog -xy` returns `y` first where a fresh cursor
returns `x`, and scanning `prog -x` reads out of bounds. -/
theorem reset_keeps_sp :
    (∀ s : State, (getopt_reset s).sp = s.sp) ∧
    ∃ s1, getopt [cstr "prog", cstr "-ab"] (cstr "ab") (State.initial (fun _ => 0) 0) =
        some (ch 'a', s1) ∧
      (getopt_reset s1).optind = 1 ∧ (getopt_reset s1).optarg = none ∧ (getopt_reset s1).sp = 2 ∧
      (getopt [cstr "prog", cstr "-xy"] (cstr "xy") (getopt_reset s1)).map Prod.fst
        = some (ch 'y') ∧
      (getopt [cstr "prog", cstr "-xy"] (cstr "xy") (State.initial (fun _ => 0) 0)).map Prod.fst
        = some (ch 'x') ∧
      (getopt [cstr "prog", cstr "-x"] (cstr "x") (getopt_reset s1)).isNone = true := by
  refine ⟨fun s => rfl, _, rfl, rfl, rfl, rfl, by decide, by decide, by decide⟩

end Getopt
